import Mathlib

set_option maxHeartbeats 1000000

/-
Verification of the openclaw graph plugin core: the SQLite-backed triple
store with entity registry and co-occurrence cache (src/lib/graph-store.js)
and the link-expansion searcher (GraphSearcher).  The SQLite tables are
modelled as Lean lists of rows kept in insertion order; SQL `ORDER BY`
clauses become stable descending insertion sorts; `datetime('now')` values
are an explicit `now : Nat` parameter threaded through every mutating
operation, and date strings are lists of code points compared by the usual
lexicographic order.  JavaScript strings are modelled as lists of Unicode
code points, JS truthiness of strings/numbers (`x || default`) is modelled
explicitly, and `REAL` columns become rationals.
-/

namespace OCG

/-- A JavaScript string, modelled as its list of code points. -/
abbrev Str := List Nat

/-- ASCII lowercasing of one code point; models the effect of JavaScript
`toLowerCase` (and of SQLite's default case folding for `LIKE`) on the
ASCII range. -/
def lcCode (n : Nat) : Nat := if 65 ≤ n ∧ n ≤ 90 then n + 32 else n

/-- Whitespace code points recognised by the JS regular expression `\s`
(ASCII fragment plus NBSP); `trim` uses the same set. -/
def isWS (n : Nat) : Bool :=
  n == 9 || n == 10 || n == 11 || n == 12 || n == 13 || n == 32 || n == 160

/-- JavaScript `String.prototype.toLowerCase` (ASCII model). -/
def jsToLower (s : Str) : Str := s.map lcCode

/-- JavaScript `String.prototype.trim`: drop whitespace from both ends. -/
def trimWS (s : Str) : Str :=
  ((s.dropWhile (fun c => isWS c)).reverse.dropWhile (fun c => isWS c)).reverse

/-- Replace every maximal whitespace run by a single `'_'` (code 95):
the effect of `.replace(/\s+/g, '_')`.  The boolean flag records whether
the previous character was whitespace (i.e. whether we are inside a run
whose `'_'` has already been emitted). -/
def collapseAux : Bool → Str → Str
  | _, [] => []
  | prevWS, c :: cs =>
    if isWS c then
      (if prevWS then collapseAux true cs else 95 :: collapseAux true cs)
    else c :: collapseAux false cs

/-- The `.replace(/\s+/g, '_')` step of entity-id normalization. -/
def collapseWS (s : Str) : Str := collapseAux false s

/-- GraphStore.normalizeEntityId:
`name.toLowerCase().trim().replace(/\s+/g, '_')`. -/
def normalizeEntityId (name : Str) : Str := collapseWS (trimWS (jsToLower name))

/-- JS `s || d` for an optional string: `undefined`/`null` and the empty
string are falsy. -/
def jsOrStr (o : Option Str) (d : Str) : Str :=
  match o with
  | some s => if s = [] then d else s
  | none => d

/-- JS `n || d` for an optional number: `undefined`/`null` and `0` are falsy. -/
def jsOrNat (o : Option Nat) (d : Nat) : Nat :=
  match o with
  | some n => if n = 0 then d else n
  | none => d

/-- JS `q || d` for an optional rational-valued number. -/
def jsOrRat (o : Option ℚ) (d : ℚ) : ℚ :=
  match o with
  | some q => if q = 0 then d else q
  | none => d

/-- Truthiness coercion of an optional string to an optional value:
the empty string collapses to `none` (models `x || null` and `if (!x)`). -/
def jsStrOpt (o : Option Str) : Option Str :=
  match o with
  | some s => if s = [] then none else some s
  | none => none

/-- Code-unit lexicographic strict order on JS strings (the order used by
the default `Array.prototype.sort` comparator and by `<`/`>` on strings). -/
def strLtB : Str → Str → Bool
  | [], [] => false
  | [], _ :: _ => true
  | _ :: _, [] => false
  | a :: as, b :: bs => if a < b then true else if b < a then false else strLtB as bs

/-- The string `'main'`. -/
def mainStr : Str := [109, 97, 105, 110]

/-- The string `'CONCEPT'`. -/
def conceptStr : Str := [67, 79, 78, 67, 69, 80, 84]

/-- The string `'[]'` (the default `aliases` column value). -/
def aliasesLit : Str := [91, 93]

/-- Stable insertion of one element into a list sorted descending by `f`:
the element is placed before the first position whose key is not larger,
so elements inserted earlier keep priority on ties. -/
def insertDescBy {α β : Type} (f : α → β) [LinearOrder β] (x : α) : List α → List α
  | [] => [x]
  | y :: ys => if f x < f y then y :: insertDescBy f x ys else x :: y :: ys

/-- Stable descending sort by key `f`: models SQL `ORDER BY f DESC` (with
the scan order of the underlying table breaking ties) and the stable
JavaScript `Array.prototype.sort` with a descending comparator. -/
def sortDescBy {α β : Type} (f : α → β) [LinearOrder β] (l : List α) : List α :=
  l.foldr (insertDescBy f) []

/-- One row of the `entities` table. -/
structure Entity where
  id : Str
  canonicalName : Str
  entityType : Str
  firstSeen : Nat
  lastSeen : Nat
  mentionCount : Nat
  aliases : Str
  metadata : Option Str
  agentId : Str
deriving DecidableEq

/-- One row of the `triples` table. -/
structure Triple where
  id : Nat
  subject : Str
  predicate : Str
  object : Str
  confidence : ℚ
  sourceExchangeId : Option Str
  sourceDate : Option Str
  createdAt : Nat
  updatedAt : Nat
  agentId : Str
  pendingResolution : Bool
deriving DecidableEq

/-- One row of the `cooccurrences` table.  Note that the schema has no
agent column at all. -/
structure Cooc where
  entityA : Str
  entityB : Str
  count : Nat
  lastSeen : Nat
deriving DecidableEq

/-- The state of one graph.db file: the three tables in insertion order
plus the AUTOINCREMENT counter for `triples.id`. -/
structure DB where
  entities : List Entity
  triples : List Triple
  coocs : List Cooc
  nextId : Nat
deriving DecidableEq

/-- The prepared statement `_upsertEntity`:
`INSERT INTO entities ... ON CONFLICT(id) DO UPDATE SET
 last_seen = datetime('now'), mention_count = mention_count + 1`.
The conflict target is the primary key `id` alone, so on conflict only
`last_seen` and `mention_count` change. -/
def upsertEntityRow (db : DB) (id name ty aid : Str) (now : Nat) : DB :=
  if db.entities.any (fun e => e.id == id) then
    { db with entities := db.entities.map (fun e =>
        if e.id = id then { e with lastSeen := now, mentionCount := e.mentionCount + 1 } else e) }
  else
    { db with entities := db.entities ++
        [{ id := id, canonicalName := name, entityType := ty, firstSeen := now,
           lastSeen := now, mentionCount := 1, aliases := aliasesLit,
           metadata := none, agentId := aid }] }

/-- GraphStore.upsertEntity(name, type, agentId): normalizes the name and
runs `_upsertEntity` with `type || 'CONCEPT'` and `agentId || 'main'`,
returning the normalized id. -/
def upsertEntity (db : DB) (name : Str) (ty : Option Str) (agentId : Option Str)
    (now : Nat) : Str × DB :=
  let id := normalizeEntityId name
  (id, upsertEntityRow db id name (jsOrStr ty conceptStr) (jsOrStr agentId mainStr) now)

/-- GraphStore.getEntity: `SELECT * FROM entities WHERE id = ?`. -/
def getEntity (db : DB) (id : Str) : Option Entity :=
  db.entities.find? (fun e => e.id == id)

/-- The prepared statement `_findTriple`:
`SELECT id FROM triples WHERE subject = ? AND predicate = ? AND object = ?
 AND agent_id = ? LIMIT 1` (first row in table order). -/
def findTriple (db : DB) (s p o aid : Str) : Option Triple :=
  db.triples.find? (fun t =>
    t.subject == s && t.predicate == p && t.object == o && t.agentId == aid)

/-- The prepared statement `_updateTripleConfidence`:
`UPDATE triples SET confidence = MAX(confidence, ?),
 updated_at = datetime('now') WHERE id = ?`. -/
def updateTripleConfidence (db : DB) (conf : ℚ) (i : Nat) (now : Nat) : DB :=
  { db with triples := db.triples.map (fun t =>
      if t.id = i then { t with confidence := max t.confidence conf, updatedAt := now } else t) }

/-- The argument object of GraphStore.addTriple. -/
structure TripleIn where
  subject : Str
  predicate : Str
  object : Str
  confidence : Option ℚ
  sourceExchangeId : Option Str
  sourceDate : Option Str
  agentId : Option Str
  pendingResolution : Bool
deriving DecidableEq

/-- GraphStore.addTriple: normalizes subject/object, looks the key up with
`_findTriple`; on a hit bumps the confidence to the max and returns the
existing id, otherwise inserts a fresh row (confidence `confidence || 1.0`,
source date `sourceDate || today`, exchange id `sourceExchangeId || null`)
and returns the fresh AUTOINCREMENT id. -/
def addTriple (db : DB) (inp : TripleIn) (now : Nat) (today : Str) : Nat × DB :=
  let subjectId := normalizeEntityId inp.subject
  let objectId := normalizeEntityId inp.object
  let aid := jsOrStr inp.agentId mainStr
  match findTriple db subjectId inp.predicate objectId aid with
  | some ex => (ex.id, updateTripleConfidence db (jsOrRat inp.confidence 1) ex.id now)
  | none =>
    let row : Triple :=
      { id := db.nextId, subject := subjectId, predicate := inp.predicate,
        object := objectId, confidence := jsOrRat inp.confidence 1,
        sourceExchangeId := jsStrOpt inp.sourceExchangeId,
        sourceDate := some (jsOrStr inp.sourceDate today),
        createdAt := now, updatedAt := now, agentId := aid,
        pendingResolution := inp.pendingResolution }
    (db.nextId, { db with triples := db.triples ++ [row], nextId := db.nextId + 1 })

/-- The prepared statement `_upsertCooccurrence`:
`INSERT INTO cooccurrences ... VALUES (?, ?, 1, datetime('now'))
 ON CONFLICT(entity_a, entity_b) DO UPDATE SET count = count + 1,
 last_seen = datetime('now')`. -/
def upsertCooccurrence (db : DB) (a b : Str) (now : Nat) : DB :=
  if db.coocs.any (fun c => c.entityA == a && c.entityB == b) then
    { db with coocs := db.coocs.map (fun c =>
        if c.entityA = a ∧ c.entityB = b then { c with count := c.count + 1, lastSeen := now } else c) }
  else
    { db with coocs := db.coocs ++ [{ entityA := a, entityB := b, count := 1, lastSeen := now }] }

/-- The `_getTriplesForSubject` scan: subject + agent filtered, ordered by
`updated_at DESC`, capped at `lim`. -/
def subjectScan (db : DB) (id aid : Str) (lim : Nat) : List Triple :=
  (sortDescBy (fun t => t.updatedAt)
    (db.triples.filter (fun t => t.subject == id && t.agentId == aid))).take lim

/-- The `_getTriplesForObject` scan: object + agent filtered, ordered by
`updated_at DESC`, capped at `lim`. -/
def objectScan (db : DB) (id aid : Str) (lim : Nat) : List Triple :=
  (sortDescBy (fun t => t.updatedAt)
    (db.triples.filter (fun t => t.object == id && t.agentId == aid))).take lim

/-- The id-dedup loop of getTriplesFor: keep the first occurrence of each
triple id (the `seen` set of ids accumulates on the left). -/
def dedupByIdAux : List Nat → List Triple → List Triple
  | _, [] => []
  | seen, t :: ts =>
    if t.id ∈ seen then dedupByIdAux seen ts else t :: dedupByIdAux (t.id :: seen) ts

/-- GraphStore.getTriplesFor(entityName, agentId, limit): both scans with
`limit || 50`, concatenated subject-scan first, then deduplicated by id. -/
def getTriplesFor (db : DB) (entityName : Str) (agentId : Option Str)
    (limit : Option Nat) : List Triple :=
  let id := normalizeEntityId entityName
  let aid := jsOrStr agentId mainStr
  let lim := jsOrNat limit 50
  dedupByIdAux [] (subjectScan db id aid lim ++ objectScan db id aid lim)

/-- GraphStore.getCooccurrences(entityName, limit):
`WHERE entity_a = ? OR entity_b = ? ORDER BY count DESC LIMIT (limit || 20)`. -/
def getCooccurrences (db : DB) (entityName : Str) (limit : Option Nat) : List Cooc :=
  let id := normalizeEntityId entityName
  (sortDescBy (fun c => c.count)
    (db.coocs.filter (fun c => c.entityA == id || c.entityB == id))).take (jsOrNat limit 20)

/-- GraphSearcher._getTriplesByNormalizedId: one scan,
`WHERE (subject = ? OR object = ?) AND agent_id = ?
 ORDER BY updated_at DESC LIMIT (limit || 50)`. -/
def getTriplesByNormalizedId (db : DB) (nid : Str) (agentId : Option Str)
    (limit : Option Nat) : List Triple :=
  let aid := jsOrStr agentId mainStr
  (sortDescBy (fun t => t.updatedAt)
    (db.triples.filter (fun t =>
      (t.subject == nid || t.object == nid) && t.agentId == aid))).take (jsOrNat limit 50)

/-- GraphStore.queryTriples: conjunctive optional filters (subject/object
normalized, predicate and agent verbatim; a JS-falsy filter value means
"no filter"), ordered by `updated_at DESC`, `LIMIT (limit || 50)`. -/
def queryTriples (db : DB) (subject predicate object agentId : Option Str)
    (limit : Option Nat) : List Triple :=
  let cond := fun (t : Triple) =>
    (match subject with
     | some s => if s = [] then true else t.subject == normalizeEntityId s
     | none => true) &&
    (match predicate with
     | some p => if p = [] then true else t.predicate == p
     | none => true) &&
    (match object with
     | some o => if o = [] then true else t.object == normalizeEntityId o
     | none => true) &&
    (match agentId with
     | some a => if a = [] then true else t.agentId == a
     | none => true)
  (sortDescBy (fun t => t.updatedAt) (db.triples.filter cond)).take (jsOrNat limit 50)

/-- GraphStore.deleteTriplesByExchange:
`DELETE FROM triples WHERE source_exchange_id = ?`; the returned number is
the `changes` field of the statement-run info, i.e. the count of deleted
rows. -/
def deleteTriplesByExchange (db : DB) (exchangeId : Str) : Nat × DB :=
  ((db.triples.filter (fun t => t.sourceExchangeId == some exchangeId)).length,
   { db with triples := db.triples.filter (fun t => !(t.sourceExchangeId == some exchangeId)) })

/-- The result shape of GraphStore.getStats. -/
structure Stats where
  entityCount : Nat
  tripleCount : Nat
  recentEntities : List Entity
  topCooccurrences : List Cooc
deriving DecidableEq

/-- GraphStore.getStats(agentId): `_countEntities` and `_countTriples` are
agent-filtered, `_recentEntities` is agent-filtered ordered by
`last_seen DESC LIMIT 10`, while `_topCooccurrences` is
`SELECT * FROM cooccurrences ORDER BY count DESC LIMIT 10` with no agent
filter. -/
def getStats (db : DB) (agentId : Option Str) : Stats :=
  let aid := jsOrStr agentId mainStr
  { entityCount := (db.entities.filter (fun e => e.agentId == aid)).length,
    tripleCount := (db.triples.filter (fun t => t.agentId == aid)).length,
    recentEntities :=
      (sortDescBy (fun e => e.lastSeen) (db.entities.filter (fun e => e.agentId == aid))).take 10,
    topCooccurrences := (sortDescBy (fun c => c.count) db.coocs).take 10 }

/-- All suffixes of a string, longest first (the string itself included,
ending with the empty suffix). -/
def strTails : Str → List Str
  | [] => [[]]
  | c :: ts => (c :: ts) :: strTails ts

/-- SQLite `LIKE` matching (the default, `case_sensitive_like` off):
`%` (code 37) matches any sequence — i.e. some suffix of the text matches
the rest of the pattern — `_` (code 95) matches any single character, and
ordinary characters compare after ASCII case folding on both sides. -/
def likeMatch : Str → Str → Bool
  | [], t => t.isEmpty
  | p :: ps, t =>
    if p = 37 then (strTails t).any (fun s => likeMatch ps s)
    else if p = 95 then
      (match t with
       | [] => false
       | _ :: ts => likeMatch ps ts)
    else
      (match t with
       | [] => false
       | c :: ts => (lcCode p == lcCode c) && likeMatch ps ts)

/-- GraphStore.findEntitiesByPrefix(prefix, agentId):
`SELECT * FROM entities WHERE canonical_name LIKE (prefix + '%')
 AND agent_id = (agentId || 'main') LIMIT 10` in table order. -/
def findEntitiesByPrefix (db : DB) (pfx : Str) (agentId : Option Str) : List Entity :=
  (db.entities.filter (fun e =>
    likeMatch (pfx ++ [37]) e.canonicalName && e.agentId == jsOrStr agentId mainStr)).take 10

/-- One element of writeExchange's `entities` input. -/
structure EntIn where
  name : Str
  etype : Option Str
deriving DecidableEq

/-- One element of writeExchange's `triples` input. -/
structure TripleIn0 where
  subject : Str
  predicate : Str
  object : Str
  confidence : Option ℚ
deriving DecidableEq

/-- The argument object of GraphStore.writeExchange. -/
structure ExchangeIn where
  entities : List EntIn
  triples : List TripleIn0
  cooccurrences : List (Str × Str)
  agentId : Option Str
  sourceExchangeId : Option Str
  sourceDate : Option Str
deriving DecidableEq

/-- The addTriple argument object built inside writeExchange for one
batch triple: the exchange's agent id, exchange id and date are attached. -/
def mkTI (tr : TripleIn0) (aid : Str) (srcEx : Option Str) (date : Str) : TripleIn :=
  { subject := tr.subject, predicate := tr.predicate, object := tr.object,
    confidence := tr.confidence, sourceExchangeId := srcEx,
    sourceDate := some date, agentId := some aid, pendingResolution := false }

/-- One iteration of the entity loop of writeExchange:
`this.upsertEntity(entity.name, entity.type, aid)`. -/
def entStepW (aid : Str) (now : Nat) (d : DB) (e : EntIn) : DB :=
  (upsertEntity d e.name e.etype (some aid) now).2

/-- The entity loop of writeExchange. -/
def entPhase (db : DB) (es : List EntIn) (aid : Str) (now : Nat) : DB :=
  es.foldl (entStepW aid now) db

/-- One iteration of the triple loop of writeExchange: addTriple, with
the returned id accumulated. -/
def tripStepW (aid : Str) (srcEx : Option Str) (date : Str) (now : Nat)
    (p : List Nat × DB) (tr : TripleIn0) : List Nat × DB :=
  let r := addTriple p.2 (mkTI tr aid srcEx date) now date
  (p.1 ++ [r.1], r.2)

/-- The triple loop of writeExchange: ids are accumulated in input order. -/
def tripPhase (db : DB) (ts : List TripleIn0) (aid : Str) (srcEx : Option Str)
    (date : Str) (now : Nat) : List Nat × DB :=
  ts.foldl (tripStepW aid srcEx date now) ([], db)

/-- The triple ids of writeExchange as a direct recursion: each input
triple's id is the id addTriple returns against the state left by its
predecessors, listed in input order. -/
def tripIds (db : DB) (ts : List TripleIn0) (aid : Str) (srcEx : Option Str)
    (date : Str) (now : Nat) : List Nat :=
  match ts with
  | [] => []
  | tr :: rest =>
    let r := addTriple db (mkTI tr aid srcEx date) now date
    r.1 :: tripIds r.2 rest aid srcEx date now

/-- One iteration of the co-occurrence loop of writeExchange: both names
are normalized, the pair is sorted with the default (lexicographic)
array sort, and the sorted pair is upserted. -/
def coocPairStep (now : Nat) (d : DB) (pr : Str × Str) : DB :=
  let aId := normalizeEntityId pr.1
  let bId := normalizeEntityId pr.2
  let s := if strLtB bId aId then (bId, aId) else (aId, bId)
  upsertCooccurrence d s.1 s.2 now

/-- The co-occurrence loop of writeExchange. -/
def coocPhase (db : DB) (cs : List (Str × Str)) (now : Nat) : DB :=
  cs.foldl (coocPairStep now) db

/-- GraphStore.writeExchange (success path): entities first, then triples,
then co-occurrence pairs, inside one transaction; returns the triple ids
in input order. -/
def writeExchange (db : DB) (x : ExchangeIn) (now : Nat) (today : Str) : List Nat × DB :=
  let aid := jsOrStr x.agentId mainStr
  let date := jsOrStr x.sourceDate today
  let db1 := entPhase db x.entities aid now
  let p := tripPhase db1 x.triples aid x.sourceExchangeId date now
  (p.1, coocPhase p.2 x.cooccurrences now)

/-- The entity loop with a failure oracle: the `k`-th entity upsert throws
iff `fail k`, aborting the transaction body. -/
def entPhaseF (db : DB) (es : List EntIn) (aid : Str) (now : Nat) (k : Nat)
    (fail : Nat → Bool) : Except Unit DB :=
  match es with
  | [] => .ok db
  | e :: rest =>
    if fail k then .error ()
    else entPhaseF (entStepW aid now db e) rest aid now (k + 1) fail

/-- The triple loop with a failure oracle. -/
def tripPhaseF (db : DB) (ts : List TripleIn0) (aid : Str) (srcEx : Option Str)
    (date : Str) (now : Nat) (k : Nat) (acc : List Nat) (fail : Nat → Bool) :
    Except Unit (List Nat × DB) :=
  match ts with
  | [] => .ok (acc, db)
  | tr :: rest =>
    if fail k then .error ()
    else
      let r := addTriple db (mkTI tr aid srcEx date) now date
      tripPhaseF r.2 rest aid srcEx date now (k + 1) (acc ++ [r.1]) fail

/-- The co-occurrence loop with a failure oracle: the `k`-th co-occurrence
upsert throws iff `fail k`. -/
def coocPhaseF (db : DB) (cs : List (Str × Str)) (now : Nat) (k : Nat)
    (fail : Nat → Bool) : Except Unit DB :=
  match cs with
  | [] => .ok db
  | pr :: rest =>
    if fail k then .error ()
    else coocPhaseF (coocPairStep now db pr) rest now (k + 1) fail

/-- GraphStore.writeExchange with failure injection.  The body is the
sequence of the three loops; the wrapper is the transaction combinator.
Modelled from the spec: the better-sqlite3 `db.transaction` wrapper (not
part of this repository) commits the body's effects only when the body
finishes, and on any error rolls every effect back and rethrows, so a
failed batch leaves the database exactly as it was (spec sections 4.2
and 7). -/
def writeExchangeF (db : DB) (x : ExchangeIn) (now : Nat) (today : Str)
    (eF tF cF : Nat → Bool) : Option (List Nat) × DB :=
  let aid := jsOrStr x.agentId mainStr
  let date := jsOrStr x.sourceDate today
  match entPhaseF db x.entities aid now 0 eF with
  | .error _ => (none, db)
  | .ok db1 =>
    match tripPhaseF db1 x.triples aid x.sourceExchangeId date now 0 [] tF with
    | .error _ => (none, db)
    | .ok p =>
      match coocPhaseF p.2 x.cooccurrences now 0 cF with
      | .error _ => (none, db)
      | .ok db3 => (some p.1, db3)

/-- An entity mention produced by the (external) extractor or by the
gazetteer match: the searcher only reads its `name`. -/
structure Mention where
  name : Str
  mtype : Str
deriving DecidableEq

/-- The retrieval config section read by the GraphSearcher constructor. -/
structure Config where
  maxResults : Option Nat
  minSharedEntities : Option Nat
  cooccurrenceBoost : Option ℚ
deriving DecidableEq

/-- `this.maxResults = this.config.maxResults || 20`. -/
def maxResultsEff (cfg : Config) : Nat := jsOrNat cfg.maxResults 20

/-- `this.minSharedEntities = this.config.minSharedEntities || 1`. -/
def minSharedEff (cfg : Config) : Nat := jsOrNat cfg.minSharedEntities 1

/-- `this.cooccurrenceBoost = this.config.cooccurrenceBoost || 0.1`. -/
def boostEff (cfg : Config) : ℚ := jsOrRat cfg.cooccurrenceBoost (1 / 10)

/-- The gazetteer merge at the top of search: a `Set` of lowercased names
seeded from the extractor's entities; each gazetteer match is appended
only when its lowercased name is not in the set. -/
def mergeGaz (qes gaz : List Mention) : List Mention :=
  (gaz.foldl (fun (p : List Mention × List Str) g =>
      if (jsToLower g.name) ∈ p.2 then p
      else (p.1 ++ [g], p.2 ++ [jsToLower g.name]))
    (qes, qes.map (fun e => jsToLower e.name))).1

/-- One value of the searcher's `exchangeScores` map. -/
structure Entry where
  id : Str
  score : ℚ
  sharedEntities : List Str
  maxConfidence : ℚ
  newestDate : Option Str
deriving DecidableEq

/-- The `exchangeScores` map, as an association list in insertion order
(JS `Map` iteration order). -/
abbrev ScoreState := List (Str × Entry)

/-- The fresh entry placed in `exchangeScores` the first time an exchange
id is seen. -/
def initEntry (x : Str) : Entry :=
  { id := x, score := 0, sharedEntities := [], maxConfidence := 0, newestDate := none }

/-- Look an exchange id up in the score map. -/
def lookupEntry : ScoreState → Str → Option Entry
  | [], _ => none
  | (k, e) :: s, x => if k = x then some e else lookupEntry s x

/-- The `if (!map.has(id)) map.set(id, init); f(map.get(id))` pattern:
update the entry for `x` in place, creating it (in insertion order, at the
end) when absent. -/
def updateEntry : ScoreState → Str → (Entry → Entry) → ScoreState
  | [], x, f => [(x, f (initEntry x))]
  | (k, e) :: s, x, f =>
    if k = x then (k, f e) :: s else (k, e) :: updateEntry s x f

/-- The JS truthiness test `!triple.source_exchange_id` turned into an
optional value: `null` and the empty string both mean "skip". -/
def getSrcEx (t : Triple) : Option Str := jsStrOpt t.sourceExchangeId

/-- JS `>` between a string-or-null source date and the running
newest-date: true only when both sides are strings and the left is
strictly greater code-unit-lexicographically (comparisons with `null`
are numeric and involve NaN, hence false). -/
def jsDateGt : Option Str → Option Str → Bool
  | some a, some b => strLtB b a
  | _, _ => false

/-- `if (!entry.newestDate || triple.source_date > entry.newestDate)
      entry.newestDate = triple.source_date`. -/
def updNewest (nd sd : Option Str) : Option Str :=
  if nd = none ∨ nd = some [] ∨ jsDateGt sd nd then sd else nd

/-- `triple.confidence || 1.0`. -/
def effC (c : ℚ) : ℚ := if c = 0 then 1 else c

/-- `cooc.count || 1`. -/
def effCount (n : Nat) : Nat := if n = 0 then 1 else n

/-- `Set.prototype.add`: append an element to a duplicate-free list kept
in insertion order, unless it is already present. -/
def dApp (l : List Str) (n : Str) : List Str := if n ∈ l then l else l ++ [n]

/-- The entry mutation performed for one direct triple hit: add the
confidence to the score, record the shared entity, update max confidence
and newest date. -/
def dirUpd (lname : Str) (t : Triple) (en : Entry) : Entry :=
  { en with
    sharedEntities := dApp en.sharedEntities lname,
    score := en.score + effC t.confidence,
    maxConfidence := max en.maxConfidence (effC t.confidence),
    newestDate := updNewest en.newestDate t.sourceDate }

/-- The entry mutation performed for one co-occurrence triple hit: a
reduced boost of `cooccurrenceBoost * (cooc.count || 1)` added to the
score; shared entities and max confidence are not touched. -/
def coocUpd (boost : ℚ) (cnt : Nat) (t : Triple) (en : Entry) : Entry :=
  { en with
    score := en.score + boost * (effCount cnt : ℚ),
    newestDate := updNewest en.newestDate t.sourceDate }

/-- The body of the direct-triple loop of search, for one triple of one
query entity (whose lowercased name is `lname`): skip triples without a
source exchange id, otherwise apply `dirUpd` to that exchange's entry. -/
def directStep (lname : Str) (s : ScoreState) (t : Triple) : ScoreState :=
  match getSrcEx t with
  | none => s
  | some x => updateEntry s x (dirUpd lname t)

/-- The body of the co-occurrence triple loop of search: skip triples
without a source exchange id, otherwise apply `coocUpd` to that
exchange's entry. -/
def coocStep (boost : ℚ) (cnt : Nat) (s : ScoreState) (t : Triple) : ScoreState :=
  match getSrcEx t with
  | none => s
  | some x => updateEntry s x (coocUpd boost cnt t)

/-- The body of the co-occurrence loop of search, for one co-occurrence
row of one query entity: resolve the other side of the pair against the
entity's normalized id, fetch that entity's triples (single scan, limit
20) and fold them in with the reduced boost. -/
def coocEntityStep (db : DB) (aid : Str) (cfg : Config) (e : Mention)
    (s2 : ScoreState) (c : Cooc) : ScoreState :=
  let nid := normalizeEntityId e.name
  let coocId := if c.entityA = nid then c.entityB else c.entityA
  (getTriplesByNormalizedId db coocId (some aid) (some 20)).foldl
    (coocStep (boostEff cfg) c.count) s2

/-- Processing of one query entity in search: first its own triples
(getTriplesFor with limit 100), then its top-5 co-occurrence rows. -/
def processEntity (db : DB) (aid : Str) (cfg : Config) (s : ScoreState)
    (e : Mention) : ScoreState :=
  let s1 := (getTriplesFor db e.name (some aid) (some 100)).foldl
    (directStep (jsToLower e.name)) s
  (getCooccurrences db e.name (some 5)).foldl (coocEntityStep db aid cfg e) s1

/-- One element of search's `exchanges` output. -/
structure ExchangeResult where
  id : Str
  score : ℚ
  sharedEntityCount : Nat
  sharedEntities : List Str
  maxConfidence : ℚ
  date : Option Str
deriving DecidableEq

/-- The result object built from one surviving map entry. -/
def mkRes (e : Entry) : ExchangeResult :=
  { id := e.id, score := e.score, sharedEntityCount := e.sharedEntities.length,
    sharedEntities := e.sharedEntities, maxConfidence := e.maxConfidence,
    date := e.newestDate }

/-- The result shape of GraphSearcher.search. -/
structure SearchResult where
  exchanges : List ExchangeResult
  entities : List Mention
deriving DecidableEq

/-- GraphSearcher.search(query, agentId, options), with the two extractor
calls (external to this core) replaced by their outputs `qes0` (entity
mentions extracted from the query) and `gaz` (gazetteer matches): merge
the mentions, return empty on no entities, accumulate per-exchange
scores, filter by minimum shared entities (map iteration order), sort by
score descending (stable) and truncate to `options.limit || maxResults`. -/
def search (db : DB) (qes0 gaz : List Mention) (agentId : Option Str)
    (optLimit : Option Nat) (cfg : Config) : SearchResult :=
  let aid := jsOrStr agentId mainStr
  let limit := jsOrNat optLimit (maxResultsEff cfg)
  let qes := mergeGaz qes0 gaz
  if qes = [] then { exchanges := [], entities := [] }
  else
    let final := qes.foldl (processEntity db aid cfg) []
    let results := final.filterMap (fun p =>
      if minSharedEff cfg ≤ p.2.sharedEntities.length then some (mkRes p.2) else none)
    { exchanges := (sortDescBy (fun r => r.score) results).take limit,
      entities := qes }

/-- Sum of the effective confidences (`confidence || 1.0`) of a list of
triples. -/
def sumConf (l : List Triple) : ℚ := (l.map (fun t => effC t.confidence)).sum

/-- Independent characterization of the direct score contribution of one
query entity to one exchange: the summed effective confidence of that
entity's fetched triples (limit 100) that carry this exchange id. -/
def directContrib (db : DB) (aid : Str) (e : Mention) (x : Str) : ℚ :=
  sumConf ((getTriplesFor db e.name (some aid) (some 100)).filter
    (fun t => getSrcEx t == some x))

/-- Independent characterization of the boost one co-occurrence row of a
query entity contributes to one exchange: `cooccurrenceBoost * (count||1)`
for each of the co-occurring entity's fetched triples (limit 20) that
carry this exchange id. -/
def coocContribOne (db : DB) (aid : Str) (cfg : Config) (e : Mention) (c : Cooc)
    (x : Str) : ℚ :=
  let nid := normalizeEntityId e.name
  let coocId := if c.entityA = nid then c.entityB else c.entityA
  (((getTriplesByNormalizedId db coocId (some aid) (some 20)).filter
      (fun t => getSrcEx t == some x)).length : ℚ) * (boostEff cfg * (effCount c.count : ℚ))

/-- Independent characterization of the whole co-occurrence contribution
of one query entity to one exchange (over its top-5 co-occurrence rows). -/
def coocContrib (db : DB) (aid : Str) (cfg : Config) (e : Mention) (x : Str) : ℚ :=
  ((getCooccurrences db e.name (some 5)).map (fun c => coocContribOne db aid cfg e c x)).sum

/-- The final score of an exchange: the sum over all query entities of the
direct contribution plus the co-occurrence contribution. -/
def totalScore (db : DB) (aid : Str) (cfg : Config) (qes : List Mention) (x : Str) : ℚ :=
  (qes.map (fun e => directContrib db aid e x + coocContrib db aid cfg e x)).sum

/-- Whether a query entity has a direct triple hit on an exchange (at
least one of its fetched triples carries that exchange id). -/
def contributesDirectly (db : DB) (aid : Str) (x : Str) (e : Mention) : Bool :=
  (getTriplesFor db e.name (some aid) (some 100)).any (fun t => getSrcEx t == some x)

/-- The shared-entity set of an exchange: the lowercased names of exactly
the query entities with a direct hit, first occurrences kept in query
order.  Co-occurrence-only contributors never appear here. -/
def sharedNames (db : DB) (aid : Str) (qes : List Mention) (x : Str) : List Str :=
  ((qes.filter (contributesDirectly db aid x)).map (fun e => jsToLower e.name)).foldl dApp []

/-- The max confidence of an exchange: the running maximum (from 0) of the
effective confidences of the direct hits only. -/
def maxConfChar (db : DB) (aid : Str) (qes : List Mention) (x : Str) : ℚ :=
  ((qes.flatMap (fun e => (getTriplesFor db e.name (some aid) (some 100)).filter
      (fun t => getSrcEx t == some x))).map (fun t => effC t.confidence)).foldl max 0

/-- Default entry of the score map, viewed through a lookup: absent keys
read as the initial entry. -/
def entryD (s : ScoreState) (x : Str) : Entry := (lookupEntry s x).getD (initEntry x)

/-- Score observer of the score map. -/
def scoreOf (s : ScoreState) (x : Str) : ℚ := (entryD s x).score

/-- Shared-entity observer of the score map. -/
def sharedOf (s : ScoreState) (x : Str) : List Str := (entryD s x).sharedEntities

/-- Max-confidence observer of the score map. -/
def maxcOf (s : ScoreState) (x : Str) : ℚ := (entryD s x).maxConfidence

/-- The keys of the score map in insertion order. -/
def keysOf (s : ScoreState) : List Str := s.map Prod.fst

/-- Every entry of the score map records its own key as its id. -/
def IdsOk (s : ScoreState) : Prop := ∀ p ∈ s, (p.2).id = p.1

/-- The string `'alice'`. -/
def wAlice : Str := [97, 108, 105, 99, 101]

/-- The string `'Alice'`. -/
def wAliceCap : Str := [65, 108, 105, 99, 101]

/-- The string `'paris'`. -/
def wParis : Str := [112, 97, 114, 105, 115]

/-- The string `'E1'`. -/
def wE1 : Str := [69, 49]

/-- The string `'PERSON'`. -/
def wPerson : Str := [80, 69, 82, 83, 79, 78]

/-- The string `'a1'`. -/
def wAg1 : Str := [97, 49]

/-- The string `'a2'`. -/
def wAg2 : Str := [97, 50]

/-- The string `'v'` (a predicate). -/
def wPred : Str := [118]

/-- A concrete triple of exchange E1, touching `alice`. -/
def wT1 : Triple :=
  { id := 1, subject := wAlice, predicate := wPred, object := wParis,
    confidence := 4/5, sourceExchangeId := some wE1, sourceDate := some [50],
    createdAt := 1, updatedAt := 1, agentId := mainStr, pendingResolution := false }

/-- A concrete store with the single triple `wT1`. -/
def wDB : DB := { entities := [], triples := [wT1], coocs := [], nextId := 2 }

/-- A single extracted query mention, `alice`. -/
def wQes : List Mention := [{ name := wAlice, mtype := wPerson }]

/-- An all-default retrieval config. -/
def wCfg : Config :=
  { maxResults := none, minSharedEntities := none, cooccurrenceBoost := none }

/-- An empty store. -/
def wEmptyDB : DB := { entities := [], triples := [], coocs := [], nextId := 1 }

/-- The string `' Foo  Bar '`. -/
def wFooBarSpaced : Str := [32, 70, 111, 111, 32, 32, 66, 97, 114, 32]

/-- The string `'foo bar'`. -/
def wFooBarPlain : Str := [102, 111, 111, 32, 98, 97, 114]

/-- The string `'2'` (a date stand-in). -/
def wDate : Str := [50]

/-- A concrete addTriple input with raw subject `'Alice'` and confidence 0.6. -/
def wInp1 : TripleIn :=
  { subject := wAliceCap, predicate := wPred, object := wParis,
    confidence := some (3/5), sourceExchangeId := some wE1, sourceDate := none,
    agentId := none, pendingResolution := false }

/-- A concrete addTriple input with raw subject `'alice'` and confidence 0.9. -/
def wInp2 : TripleIn :=
  { subject := wAlice, predicate := wPred, object := wParis,
    confidence := some (9/10), sourceExchangeId := some wE1, sourceDate := none,
    agentId := none, pendingResolution := false }

/-- A concrete entity row whose stored canonical name is `'Alice'`. -/
def wEntAlice : Entity :=
  { id := wAlice, canonicalName := wAliceCap, entityType := wPerson, firstSeen := 1,
    lastSeen := 1, mentionCount := 1, aliases := aliasesLit, metadata := none,
    agentId := mainStr }

/-- A store holding only the entity `wEntAlice`. -/
def wEntDB : DB := { entities := [wEntAlice], triples := [], coocs := [], nextId := 1 }

/-- The string `'e'`. -/
def wE : Str := [101]

/-- The string `'f'`. -/
def wF : Str := [102]

/-- A triple with subject `'e'`, updated at time 50. -/
def w5T1 : Triple :=
  { id := 1, subject := wE, predicate := wPred, object := wF,
    confidence := 1, sourceExchangeId := none, sourceDate := none, createdAt := 50,
    updatedAt := 50, agentId := mainStr, pendingResolution := false }

/-- A triple with object `'e'`, updated at time 100. -/
def w5T2 : Triple :=
  { id := 2, subject := wF, predicate := wPred, object := wE,
    confidence := 1, sourceExchangeId := none, sourceDate := none, createdAt := 100,
    updatedAt := 100, agentId := mainStr, pendingResolution := false }

/-- A store where entity `'e'` is the subject of an old triple and the
object of a newer one. -/
def w5DB : DB := { entities := [], triples := [w5T1, w5T2], coocs := [], nextId := 3 }

/-- The string `'al'`. -/
def wAl : Str := [97, 108]

/-- A concrete co-occurrence row. -/
def wCooc1 : Cooc := { entityA := wAlice, entityB := wParis, count := 3, lastSeen := 5 }

/-- A store with one entity, one triple and one co-occurrence row. -/
def w6DB : DB := { entities := [wEntAlice], triples := [wT1], coocs := [wCooc1], nextId := 2 }

/-- A concrete writeExchange batch: one entity, one triple, one unsorted
co-occurrence pair. -/
def wXIn : ExchangeIn :=
  { entities := [{ name := wAliceCap, etype := some wPerson }],
    triples := [{ subject := wAliceCap, predicate := wPred, object := wParis,
                  confidence := some (3/5) }],
    cooccurrences := [(wParis, wAliceCap)],
    agentId := none, sourceExchangeId := some wE1, sourceDate := some wDate }

/- ------------------------------------------------------------------ -/
/- Helper lemmas.                                                      -/
/- ------------------------------------------------------------------ -/

theorem mem_insertDescBy {α β : Type} (f : α → β) [LinearOrder β] (x a : α)
    (l : List α) : a ∈ insertDescBy f x l ↔ a = x ∨ a ∈ l := by
  induction l with
  | nil => simp [insertDescBy]
  | cons y ys ih =>
    simp only [insertDescBy]
    by_cases h : f x < f y
    · rw [if_pos h, List.mem_cons, ih, List.mem_cons]
      tauto
    · rw [if_neg h, List.mem_cons, List.mem_cons]

theorem sorted_insertDescBy {α β : Type} (f : α → β) [LinearOrder β] (x : α)
    (l : List α) (h : l.Pairwise (fun a b => f b ≤ f a)) :
    (insertDescBy f x l).Pairwise (fun a b => f b ≤ f a) := by
  induction l with
  | nil => simp [insertDescBy]
  | cons y ys ih =>
    rcases List.pairwise_cons.mp h with ⟨hy, hys⟩
    simp only [insertDescBy]
    by_cases hlt : f x < f y
    · rw [if_pos hlt]
      refine List.pairwise_cons.mpr ⟨?_, ih hys⟩
      intro a ha
      rcases (mem_insertDescBy f x a ys).mp ha with rfl | ha'
      · exact le_of_lt hlt
      · exact hy a ha'
    · rw [if_neg hlt]
      refine List.pairwise_cons.mpr ⟨?_, h⟩
      intro a ha
      rcases List.mem_cons.mp ha with rfl | ha'
      · exact not_lt.mp hlt
      · exact le_trans (hy a ha') (not_lt.mp hlt)

theorem sortDescBy_cons {α β : Type} (f : α → β) [LinearOrder β] (x : α)
    (l : List α) : sortDescBy f (x :: l) = insertDescBy f x (sortDescBy f l) := rfl

theorem sorted_sortDescBy {α β : Type} (f : α → β) [LinearOrder β] (l : List α) :
    (sortDescBy f l).Pairwise (fun a b => f b ≤ f a) := by
  induction l with
  | nil => simp [sortDescBy]
  | cons x xs ih => exact sorted_insertDescBy f x _ ih

theorem mem_sortDescBy {α β : Type} (f : α → β) [LinearOrder β] (a : α)
    (l : List α) : a ∈ sortDescBy f l ↔ a ∈ l := by
  induction l with
  | nil => simp [sortDescBy]
  | cons x xs ih => rw [sortDescBy_cons, mem_insertDescBy, ih, List.mem_cons]

theorem length_insertDescBy {α β : Type} (f : α → β) [LinearOrder β] (x : α)
    (l : List α) : (insertDescBy f x l).length = l.length + 1 := by
  induction l with
  | nil => rfl
  | cons y ys ih =>
    simp only [insertDescBy]
    by_cases h : f x < f y
    · simp [if_pos h, ih]
    · simp [if_neg h]

theorem length_sortDescBy {α β : Type} (f : α → β) [LinearOrder β] (l : List α) :
    (sortDescBy f l).length = l.length := by
  induction l with
  | nil => rfl
  | cons x xs ih =>
    rw [sortDescBy_cons, length_insertDescBy, ih]
    simp

theorem mem_dedupByIdAux (seen : List Nat) (l : List Triple) (t : Triple)
    (h : t ∈ dedupByIdAux seen l) : t ∈ l := by
  induction l generalizing seen with
  | nil => simpa [dedupByIdAux] using h
  | cons u us ih =>
    simp only [dedupByIdAux] at h
    by_cases hm : u.id ∈ seen
    · exact List.mem_cons_of_mem u (ih seen (by simpa [if_pos hm] using h))
    · rw [if_neg hm] at h
      rcases List.mem_cons.mp h with rfl | h'
      · exact List.mem_cons_self t us
      · exact List.mem_cons_of_mem u (ih _ h')

theorem notin_seen_dedupByIdAux (seen : List Nat) (l : List Triple) (t : Triple)
    (h : t ∈ dedupByIdAux seen l) : t.id ∉ seen := by
  induction l generalizing seen with
  | nil => simp [dedupByIdAux] at h
  | cons u us ih =>
    simp only [dedupByIdAux] at h
    by_cases hm : u.id ∈ seen
    · exact ih seen (by simpa [if_pos hm] using h)
    · rw [if_neg hm] at h
      rcases List.mem_cons.mp h with rfl | h'
      · exact hm
      · intro hc
        exact ih _ h' (List.mem_cons_of_mem _ hc)

theorem nodup_ids_dedupByIdAux (seen : List Nat) (l : List Triple) :
    ((dedupByIdAux seen l).map (fun t => t.id)).Nodup := by
  induction l generalizing seen with
  | nil => simp [dedupByIdAux]
  | cons u us ih =>
    simp only [dedupByIdAux]
    by_cases hm : u.id ∈ seen
    · simpa [if_pos hm] using ih seen
    · rw [if_neg hm]
      refine List.nodup_cons.mpr ⟨?_, ih (u.id :: seen)⟩
      intro hc
      rcases List.mem_map.mp hc with ⟨v, hv, hvid⟩
      exact notin_seen_dedupByIdAux _ _ _ hv (by rw [hvid]; exact List.mem_cons_self _ _)

theorem covered_dedupByIdAux (seen : List Nat) (l : List Triple) (t : Triple)
    (h : t ∈ l) : t.id ∈ seen ∨ ∃ u ∈ dedupByIdAux seen l, u.id = t.id := by
  induction l generalizing seen with
  | nil => simp at h
  | cons u us ih =>
    simp only [dedupByIdAux]
    rcases List.mem_cons.mp h with rfl | h'
    · by_cases hm : t.id ∈ seen
      · exact Or.inl hm
      · refine Or.inr ⟨t, ?_, rfl⟩
        rw [if_neg hm]
        exact List.mem_cons_self _ _
    · by_cases hm : u.id ∈ seen
      · rw [if_pos hm]
        exact ih seen h'
      · rw [if_neg hm]
        rcases ih (u.id :: seen) h' with hs | ⟨v, hv, hvid⟩
        · rcases List.mem_cons.mp hs with he | hs'
          · exact Or.inr ⟨u, List.mem_cons_self _ _, he.symm⟩
          · exact Or.inl hs'
        · exact Or.inr ⟨v, List.mem_cons_of_mem _ hv, hvid⟩

theorem length_dedupByIdAux (seen : List Nat) (l : List Triple) :
    (dedupByIdAux seen l).length ≤ l.length := by
  induction l generalizing seen with
  | nil => simp [dedupByIdAux]
  | cons u us ih =>
    simp only [dedupByIdAux]
    by_cases hm : u.id ∈ seen
    · rw [if_pos hm]
      exact le_trans (ih seen) (Nat.le_succ _)
    · rw [if_neg hm]
      simpa using ih (u.id :: seen)

theorem minSharedEff_pos (cfg : Config) : 1 ≤ minSharedEff cfg := by
  unfold minSharedEff jsOrNat
  cases cfg.minSharedEntities with
  | none => simp
  | some n =>
    by_cases h : n = 0 <;> simp [h]
    omega

theorem dApp_idem (l : List Str) (n : Str) : dApp (dApp l n) n = dApp l n := by
  unfold dApp
  by_cases h : n ∈ l
  · simp [h]
  · simp [h]

theorem lookupEntry_updateEntry (s : ScoreState) (x y : Str) (f : Entry → Entry) :
    lookupEntry (updateEntry s x f) y =
      if y = x then some (f (entryD s x)) else lookupEntry s y := by
  induction s with
  | nil =>
    by_cases h : y = x
    · subst h
      simp [updateEntry, lookupEntry, entryD]
    · have h' : ¬ x = y := fun hc => h hc.symm
      simp [updateEntry, lookupEntry, entryD, h, h']
  | cons p s ih =>
    obtain ⟨k, e⟩ := p
    by_cases hk : k = x
    · subst hk
      by_cases hy : y = k
      · subst hy
        simp [updateEntry, lookupEntry, entryD]
      · have hky : ¬ k = y := fun hc => hy hc.symm
        simp [updateEntry, lookupEntry, entryD, hy, hky]
    · by_cases hy : y = x
      · subst hy
        have hky : ¬ k = y := hk
        simp [updateEntry, lookupEntry, entryD, hk, hky, ih]
      · by_cases hky : k = y
        · subst hky
          simp [updateEntry, lookupEntry, hk, hy]
        · simp [updateEntry, lookupEntry, hk, hy, hky, ih]

theorem entryD_updateEntry (s : ScoreState) (x y : Str) (f : Entry → Entry) :
    entryD (updateEntry s x f) y = if y = x then f (entryD s x) else entryD s y := by
  unfold entryD
  rw [lookupEntry_updateEntry]
  by_cases h : y = x <;> simp [h, entryD]

theorem keysOf_updateEntry (s : ScoreState) (x : Str) (f : Entry → Entry) :
    keysOf (updateEntry s x f) =
      if x ∈ keysOf s then keysOf s else keysOf s ++ [x] := by
  induction s with
  | nil => simp [updateEntry, keysOf]
  | cons p s ih =>
    obtain ⟨k, e⟩ := p
    by_cases hk : k = x
    · subst hk
      simp [updateEntry, keysOf]
    · have hxk : ¬ x = k := fun hc => hk hc.symm
      by_cases hx : x ∈ keysOf s
      · have hcond : x ∈ k :: List.map Prod.fst s := List.mem_cons_of_mem _ hx
        simp only [updateEntry, keysOf, List.map_cons, if_neg hk, if_pos hcond]
        have hthis := ih
        rw [if_pos hx] at hthis
        simp only [keysOf] at hthis
        rw [hthis]
      · have hcond : x ∉ k :: List.map Prod.fst s := by
          intro hc
          rcases List.mem_cons.mp hc with h1 | h2
          · exact hxk h1
          · exact hx h2
        simp only [updateEntry, keysOf, List.map_cons, if_neg hk, if_neg hcond]
        have hthis := ih
        rw [if_neg hx] at hthis
        simp only [keysOf] at hthis
        rw [hthis, List.cons_append]

theorem nodup_keysOf_updateEntry (s : ScoreState) (x : Str) (f : Entry → Entry)
    (h : (keysOf s).Nodup) : (keysOf (updateEntry s x f)).Nodup := by
  rw [keysOf_updateEntry]
  by_cases hx : x ∈ keysOf s
  · simpa [hx] using h
  · rw [if_neg hx, List.nodup_append]
    refine ⟨h, List.nodup_singleton x, ?_⟩
    intro a ha hb
    rw [List.mem_singleton] at hb
    subst hb
    exact hx ha

theorem mem_lookupEntry (s : ScoreState) (k : Str) (e : Entry)
    (hn : (keysOf s).Nodup) (hm : (k, e) ∈ s) : lookupEntry s k = some e := by
  induction s with
  | nil => simp at hm
  | cons p s ih =>
    obtain ⟨k', e'⟩ := p
    simp only [keysOf, List.map_cons, List.nodup_cons] at hn
    rcases List.mem_cons.mp hm with he | hm'
    · obtain ⟨h1, h2⟩ := Prod.ext_iff.mp he
      simp only at h1 h2
      subst h1
      subst h2
      simp [lookupEntry]
    · have hk : ¬ k' = k := by
        intro hc
        subst hc
        exact hn.1 (List.mem_map.mpr ⟨(k', e), hm', rfl⟩)
      simp only [lookupEntry, if_neg hk]
      exact ih hn.2 hm'

theorem mem_updateEntry (s : ScoreState) (x : Str) (f : Entry → Entry)
    (q : Str × Entry) (hq : q ∈ updateEntry s x f) :
    q ∈ s ∨ (∃ p ∈ s, q = (p.1, f p.2)) ∨ q = (x, f (initEntry x)) := by
  induction s with
  | nil =>
    simp only [updateEntry, List.mem_singleton] at hq
    tauto
  | cons p s ih =>
    obtain ⟨k, e⟩ := p
    simp only [updateEntry] at hq
    by_cases hk : k = x
    · rw [if_pos hk] at hq
      rcases List.mem_cons.mp hq with hq1 | hq2
      · exact Or.inr (Or.inl ⟨(k, e), List.mem_cons_self _ _, hq1⟩)
      · exact Or.inl (List.mem_cons_of_mem _ hq2)
    · rw [if_neg hk] at hq
      rcases List.mem_cons.mp hq with hq1 | hq2
      · exact Or.inl (hq1 ▸ List.mem_cons_self _ _)
      · rcases ih hq2 with h1 | h2 | h3
        · exact Or.inl (List.mem_cons_of_mem _ h1)
        · rcases h2 with ⟨p, hp, hqe⟩
          exact Or.inr (Or.inl ⟨p, List.mem_cons_of_mem _ hp, hqe⟩)
        · exact Or.inr (Or.inr h3)

theorem idsOk_updateEntry (s : ScoreState) (x : Str) (f : Entry → Entry)
    (h : IdsOk s) (hf : ∀ en, (f en).id = en.id) : IdsOk (updateEntry s x f) := by
  intro q hq
  rcases mem_updateEntry s x f q hq with h1 | ⟨p, hp, h2⟩ | h3
  · exact h q h1
  · subst h2
    simpa [hf] using h p hp
  · subst h3
    simp [hf, initEntry]

theorem directStep_none (lname : Str) (s : ScoreState) (t : Triple)
    (hsx : getSrcEx t = none) : directStep lname s t = s := by
  unfold directStep
  rw [hsx]

theorem directStep_some (lname : Str) (s : ScoreState) (t : Triple) (y : Str)
    (hsx : getSrcEx t = some y) :
    directStep lname s t = updateEntry s y (dirUpd lname t) := by
  unfold directStep
  rw [hsx]

theorem coocStep_none (boost : ℚ) (cnt : Nat) (s : ScoreState) (t : Triple)
    (hsx : getSrcEx t = none) : coocStep boost cnt s t = s := by
  unfold coocStep
  rw [hsx]

theorem coocStep_some (boost : ℚ) (cnt : Nat) (s : ScoreState) (t : Triple) (y : Str)
    (hsx : getSrcEx t = some y) :
    coocStep boost cnt s t = updateEntry s y (coocUpd boost cnt t) := by
  unfold coocStep
  rw [hsx]

theorem scoreOf_directFold (lname : Str) (ts : List Triple) (s : ScoreState) (x : Str) :
    scoreOf (ts.foldl (directStep lname) s) x
      = scoreOf s x + sumConf (ts.filter (fun t => getSrcEx t == some x)) := by
  induction ts generalizing s with
  | nil => simp [sumConf]
  | cons t ts ih =>
    simp only [List.foldl_cons]
    cases hsx : getSrcEx t with
    | none =>
      have hp : (getSrcEx t == some x) = false := by simp [hsx]
      rw [directStep_none lname s t hsx, ih, List.filter_cons, hp]
      simp
    | some y =>
      rw [directStep_some lname s t y hsx, ih]
      by_cases hyx : y = x
      · subst hyx
        have hp : (getSrcEx t == some y) = true := by simp [hsx]
        have hsc : scoreOf (updateEntry s y (dirUpd lname t)) y
            = scoreOf s y + effC t.confidence := by
          unfold scoreOf
          rw [entryD_updateEntry, if_pos rfl]
          rfl
        rw [List.filter_cons, hp, hsc]
        simp only [if_true, sumConf, List.map_cons, List.sum_cons]
        ring
      · have hxy : ¬ x = y := fun hc => hyx hc.symm
        have hp : (getSrcEx t == some x) = false := by
          rw [hsx]
          simpa using hyx
        have hsc : scoreOf (updateEntry s y (dirUpd lname t)) x = scoreOf s x := by
          unfold scoreOf
          rw [entryD_updateEntry, if_neg hxy]
        rw [List.filter_cons, hp, hsc]
        simp

theorem sharedOf_directFold (lname : Str) (ts : List Triple) (s : ScoreState) (x : Str) :
    sharedOf (ts.foldl (directStep lname) s) x =
      if ts.any (fun t => getSrcEx t == some x) then dApp (sharedOf s x) lname
      else sharedOf s x := by
  induction ts generalizing s with
  | nil => simp
  | cons t ts ih =>
    simp only [List.foldl_cons]
    cases hsx : getSrcEx t with
    | none =>
      have hp : ((t :: ts).any (fun t => getSrcEx t == some x))
          = (ts.any (fun t => getSrcEx t == some x)) := by
        simp [List.any_cons, hsx]
      rw [directStep_none lname s t hsx, ih, hp]
    | some y =>
      rw [directStep_some lname s t y hsx, ih]
      by_cases hyx : y = x
      · subst hyx
        have hp : ((t :: ts).any (fun t => getSrcEx t == some y)) = true := by
          simp [List.any_cons, hsx]
        have hsh : sharedOf (updateEntry s y (dirUpd lname t)) y
            = dApp (sharedOf s y) lname := by
          unfold sharedOf
          rw [entryD_updateEntry, if_pos rfl]
          rfl
        rw [hsh, hp, if_pos rfl]
        by_cases hrest : (ts.any (fun t => getSrcEx t == some y)) = true
        · rw [if_pos hrest, dApp_idem]
        · rw [if_neg hrest]
      · have hxy : ¬ x = y := fun hc => hyx hc.symm
        have hp : ((t :: ts).any (fun t => getSrcEx t == some x))
            = (ts.any (fun t => getSrcEx t == some x)) := by
          simp [List.any_cons, hsx, hyx]
        have hsh : sharedOf (updateEntry s y (dirUpd lname t)) x = sharedOf s x := by
          unfold sharedOf
          rw [entryD_updateEntry, if_neg hxy]
        rw [hsh, hp]

theorem maxcOf_directFold (lname : Str) (ts : List Triple) (s : ScoreState) (x : Str) :
    maxcOf (ts.foldl (directStep lname) s) x =
      (ts.filter (fun t => getSrcEx t == some x)).foldl
        (fun a t => max a (effC t.confidence)) (maxcOf s x) := by
  induction ts generalizing s with
  | nil => simp
  | cons t ts ih =>
    simp only [List.foldl_cons]
    cases hsx : getSrcEx t with
    | none =>
      have hp : (getSrcEx t == some x) = false := by simp [hsx]
      rw [directStep_none lname s t hsx, ih, List.filter_cons, hp]
      simp
    | some y =>
      rw [directStep_some lname s t y hsx, ih]
      by_cases hyx : y = x
      · subst hyx
        have hp : (getSrcEx t == some y) = true := by simp [hsx]
        have hmx : maxcOf (updateEntry s y (dirUpd lname t)) y
            = max (maxcOf s y) (effC t.confidence) := by
          unfold maxcOf
          rw [entryD_updateEntry, if_pos rfl]
          rfl
        rw [List.filter_cons, hp, hmx]
        simp
      · have hxy : ¬ x = y := fun hc => hyx hc.symm
        have hp : (getSrcEx t == some x) = false := by
          rw [hsx]
          simpa using hyx
        have hmx : maxcOf (updateEntry s y (dirUpd lname t)) x = maxcOf s x := by
          unfold maxcOf
          rw [entryD_updateEntry, if_neg hxy]
        rw [List.filter_cons, hp, hmx]
        simp

theorem scoreOf_coocFold (boost : ℚ) (cnt : Nat) (ts : List Triple) (s : ScoreState)
    (x : Str) :
    scoreOf (ts.foldl (coocStep boost cnt) s) x =
      scoreOf s x +
        ((ts.filter (fun t => getSrcEx t == some x)).length : ℚ) *
          (boost * (effCount cnt : ℚ)) := by
  induction ts generalizing s with
  | nil => simp
  | cons t ts ih =>
    simp only [List.foldl_cons]
    cases hsx : getSrcEx t with
    | none =>
      have hp : (getSrcEx t == some x) = false := by simp [hsx]
      rw [coocStep_none boost cnt s t hsx, ih, List.filter_cons, hp]
      simp
    | some y =>
      rw [coocStep_some boost cnt s t y hsx, ih]
      by_cases hyx : y = x
      · subst hyx
        have hp : (getSrcEx t == some y) = true := by simp [hsx]
        have hsc : scoreOf (updateEntry s y (coocUpd boost cnt t)) y
            = scoreOf s y + boost * (effCount cnt : ℚ) := by
          unfold scoreOf
          rw [entryD_updateEntry, if_pos rfl]
          rfl
        rw [List.filter_cons, hp, hsc]
        simp only [if_true, List.length_cons]
        push_cast
        ring
      · have hxy : ¬ x = y := fun hc => hyx hc.symm
        have hp : (getSrcEx t == some x) = false := by
          rw [hsx]
          simpa using hyx
        have hsc : scoreOf (updateEntry s y (coocUpd boost cnt t)) x = scoreOf s x := by
          unfold scoreOf
          rw [entryD_updateEntry, if_neg hxy]
        rw [List.filter_cons, hp, hsc]
        simp

theorem sharedOf_coocFold (boost : ℚ) (cnt : Nat) (ts : List Triple) (s : ScoreState)
    (x : Str) : sharedOf (ts.foldl (coocStep boost cnt) s) x = sharedOf s x := by
  induction ts generalizing s with
  | nil => rfl
  | cons t ts ih =>
    simp only [List.foldl_cons]
    cases hsx : getSrcEx t with
    | none => rw [coocStep_none boost cnt s t hsx, ih]
    | some y =>
      rw [coocStep_some boost cnt s t y hsx, ih]
      unfold sharedOf
      rw [entryD_updateEntry]
      by_cases hxy : x = y
      · rw [if_pos hxy]
        subst hxy
        rfl
      · rw [if_neg hxy]

theorem maxcOf_coocFold (boost : ℚ) (cnt : Nat) (ts : List Triple) (s : ScoreState)
    (x : Str) : maxcOf (ts.foldl (coocStep boost cnt) s) x = maxcOf s x := by
  induction ts generalizing s with
  | nil => rfl
  | cons t ts ih =>
    simp only [List.foldl_cons]
    cases hsx : getSrcEx t with
    | none => rw [coocStep_none boost cnt s t hsx, ih]
    | some y =>
      rw [coocStep_some boost cnt s t y hsx, ih]
      unfold maxcOf
      rw [entryD_updateEntry]
      by_cases hxy : x = y
      · rw [if_pos hxy]
        subst hxy
        rfl
      · rw [if_neg hxy]

theorem scoreOf_coocEntityStep (db : DB) (aid : Str) (cfg : Config) (e : Mention)
    (s : ScoreState) (c : Cooc) (x : Str) :
    scoreOf (coocEntityStep db aid cfg e s c) x
      = scoreOf s x + coocContribOne db aid cfg e c x := by
  simp only [coocEntityStep, coocContribOne]
  rw [scoreOf_coocFold]

theorem sharedOf_coocEntityStep (db : DB) (aid : Str) (cfg : Config) (e : Mention)
    (s : ScoreState) (c : Cooc) (x : Str) :
    sharedOf (coocEntityStep db aid cfg e s c) x = sharedOf s x := by
  simp only [coocEntityStep]
  rw [sharedOf_coocFold]

theorem maxcOf_coocEntityStep (db : DB) (aid : Str) (cfg : Config) (e : Mention)
    (s : ScoreState) (c : Cooc) (x : Str) :
    maxcOf (coocEntityStep db aid cfg e s c) x = maxcOf s x := by
  simp only [coocEntityStep]
  rw [maxcOf_coocFold]

theorem scoreOf_coocOuterFold (db : DB) (aid : Str) (cfg : Config) (e : Mention)
    (cs : List Cooc) (s : ScoreState) (x : Str) :
    scoreOf (cs.foldl (coocEntityStep db aid cfg e) s) x
      = scoreOf s x + (cs.map (fun c => coocContribOne db aid cfg e c x)).sum := by
  induction cs generalizing s with
  | nil => simp
  | cons c cs ih =>
    simp only [List.foldl_cons, List.map_cons, List.sum_cons]
    rw [ih, scoreOf_coocEntityStep]
    ring

theorem sharedOf_coocOuterFold (db : DB) (aid : Str) (cfg : Config) (e : Mention)
    (cs : List Cooc) (s : ScoreState) (x : Str) :
    sharedOf (cs.foldl (coocEntityStep db aid cfg e) s) x = sharedOf s x := by
  induction cs generalizing s with
  | nil => rfl
  | cons c cs ih =>
    simp only [List.foldl_cons]
    rw [ih, sharedOf_coocEntityStep]

theorem maxcOf_coocOuterFold (db : DB) (aid : Str) (cfg : Config) (e : Mention)
    (cs : List Cooc) (s : ScoreState) (x : Str) :
    maxcOf (cs.foldl (coocEntityStep db aid cfg e) s) x = maxcOf s x := by
  induction cs generalizing s with
  | nil => rfl
  | cons c cs ih =>
    simp only [List.foldl_cons]
    rw [ih, maxcOf_coocEntityStep]

theorem scoreOf_processEntity (db : DB) (aid : Str) (cfg : Config) (s : ScoreState)
    (e : Mention) (x : Str) :
    scoreOf (processEntity db aid cfg s e) x
      = scoreOf s x + directContrib db aid e x + coocContrib db aid cfg e x := by
  simp only [processEntity]
  rw [scoreOf_coocOuterFold, scoreOf_directFold]
  simp only [directContrib, coocContrib]

theorem sharedOf_processEntity (db : DB) (aid : Str) (cfg : Config) (s : ScoreState)
    (e : Mention) (x : Str) :
    sharedOf (processEntity db aid cfg s e) x =
      if contributesDirectly db aid x e then dApp (sharedOf s x) (jsToLower e.name)
      else sharedOf s x := by
  simp only [processEntity, contributesDirectly]
  rw [sharedOf_coocOuterFold, sharedOf_directFold]

theorem maxcOf_processEntity (db : DB) (aid : Str) (cfg : Config) (s : ScoreState)
    (e : Mention) (x : Str) :
    maxcOf (processEntity db aid cfg s e) x =
      (((getTriplesFor db e.name (some aid) (some 100)).filter
          (fun t => getSrcEx t == some x)).map (fun t => effC t.confidence)).foldl
        max (maxcOf s x) := by
  simp only [processEntity]
  rw [maxcOf_coocOuterFold, maxcOf_directFold, List.foldl_map]

theorem scoreOf_mainFold (db : DB) (aid : Str) (cfg : Config) (qes : List Mention)
    (s : ScoreState) (x : Str) :
    scoreOf (qes.foldl (processEntity db aid cfg) s) x
      = scoreOf s x + totalScore db aid cfg qes x := by
  induction qes generalizing s with
  | nil => simp [totalScore]
  | cons e qes ih =>
    simp only [List.foldl_cons, totalScore, List.map_cons, List.sum_cons]
    rw [ih, scoreOf_processEntity]
    simp only [totalScore]
    ring

theorem sharedOf_mainFold (db : DB) (aid : Str) (cfg : Config) (qes : List Mention)
    (s : ScoreState) (x : Str) :
    sharedOf (qes.foldl (processEntity db aid cfg) s) x =
      (qes.filter (contributesDirectly db aid x)).foldl
        (fun acc e => dApp acc (jsToLower e.name)) (sharedOf s x) := by
  induction qes generalizing s with
  | nil => rfl
  | cons e qes ih =>
    simp only [List.foldl_cons, List.filter_cons]
    by_cases hc : contributesDirectly db aid x e = true
    · rw [hc, if_pos rfl, List.foldl_cons, ih, sharedOf_processEntity, if_pos hc]
    · rw [Bool.not_eq_true] at hc
      rw [hc]
      simp only [Bool.false_eq_true, if_false]
      rw [ih, sharedOf_processEntity]
      rw [if_neg (by simp [hc])]

theorem maxcOf_mainFold (db : DB) (aid : Str) (cfg : Config) (qes : List Mention)
    (s : ScoreState) (x : Str) :
    maxcOf (qes.foldl (processEntity db aid cfg) s) x =
      ((qes.flatMap (fun e => (getTriplesFor db e.name (some aid) (some 100)).filter
          (fun t => getSrcEx t == some x))).map (fun t => effC t.confidence)).foldl
        max (maxcOf s x) := by
  induction qes generalizing s with
  | nil => rfl
  | cons e qes ih =>
    simp only [List.foldl_cons, List.flatMap_cons, List.map_append, List.foldl_append]
    rw [ih, maxcOf_processEntity]

theorem foldl_preserveInv {α σ : Type} (P : σ → Prop)
    (step : σ → α → σ) (hstep : ∀ s a, P s → P (step s a)) :
    ∀ (l : List α) (s : σ), P s → P (l.foldl step s) := by
  intro l
  induction l with
  | nil => exact fun s hs => hs
  | cons a l ih => exact fun s hs => ih _ (hstep s a hs)

theorem keysNodup_directStep (lname : Str) (s : ScoreState) (t : Triple)
    (h : (keysOf s).Nodup) : (keysOf (directStep lname s t)).Nodup := by
  cases hsx : getSrcEx t with
  | none => rwa [directStep_none lname s t hsx]
  | some y =>
    rw [directStep_some lname s t y hsx]
    exact nodup_keysOf_updateEntry s y _ h

theorem keysNodup_coocStep (boost : ℚ) (cnt : Nat) (s : ScoreState) (t : Triple)
    (h : (keysOf s).Nodup) : (keysOf (coocStep boost cnt s t)).Nodup := by
  cases hsx : getSrcEx t with
  | none => rwa [coocStep_none boost cnt s t hsx]
  | some y =>
    rw [coocStep_some boost cnt s t y hsx]
    exact nodup_keysOf_updateEntry s y _ h

theorem keysNodup_processEntity (db : DB) (aid : Str) (cfg : Config) (s : ScoreState)
    (e : Mention) (h : (keysOf s).Nodup) :
    (keysOf (processEntity db aid cfg s e)).Nodup := by
  simp only [processEntity]
  refine foldl_preserveInv (fun s => (keysOf s).Nodup) _ ?_ _ _ ?_
  · intro s2 c hs2
    simp only [coocEntityStep]
    exact foldl_preserveInv (fun s => (keysOf s).Nodup) _
      (fun s3 t h3 => keysNodup_coocStep _ _ s3 t h3) _ s2 hs2
  · exact foldl_preserveInv (fun s => (keysOf s).Nodup) _
      (fun s3 t h3 => keysNodup_directStep _ s3 t h3) _ s h

theorem keysNodup_mainFold (db : DB) (aid : Str) (cfg : Config) (qes : List Mention)
    (s : ScoreState) (h : (keysOf s).Nodup) :
    (keysOf (qes.foldl (processEntity db aid cfg) s)).Nodup :=
  foldl_preserveInv (fun s => (keysOf s).Nodup) _
    (fun s2 e h2 => keysNodup_processEntity db aid cfg s2 e h2) qes s h

theorem idsOk_directStep (lname : Str) (s : ScoreState) (t : Triple)
    (h : IdsOk s) : IdsOk (directStep lname s t) := by
  cases hsx : getSrcEx t with
  | none => rwa [directStep_none lname s t hsx]
  | some y =>
    rw [directStep_some lname s t y hsx]
    exact idsOk_updateEntry s y _ h (fun en => rfl)

theorem idsOk_coocStep (boost : ℚ) (cnt : Nat) (s : ScoreState) (t : Triple)
    (h : IdsOk s) : IdsOk (coocStep boost cnt s t) := by
  cases hsx : getSrcEx t with
  | none => rwa [coocStep_none boost cnt s t hsx]
  | some y =>
    rw [coocStep_some boost cnt s t y hsx]
    exact idsOk_updateEntry s y _ h (fun en => rfl)

theorem idsOk_processEntity (db : DB) (aid : Str) (cfg : Config) (s : ScoreState)
    (e : Mention) (h : IdsOk s) : IdsOk (processEntity db aid cfg s e) := by
  simp only [processEntity]
  refine foldl_preserveInv IdsOk _ ?_ _ _ ?_
  · intro s2 c hs2
    simp only [coocEntityStep]
    exact foldl_preserveInv IdsOk _
      (fun s3 t h3 => idsOk_coocStep _ _ s3 t h3) _ s2 hs2
  · exact foldl_preserveInv IdsOk _
      (fun s3 t h3 => idsOk_directStep _ s3 t h3) _ s h

theorem idsOk_mainFold (db : DB) (aid : Str) (cfg : Config) (qes : List Mention)
    (s : ScoreState) (h : IdsOk s) :
    IdsOk (qes.foldl (processEntity db aid cfg) s) :=
  foldl_preserveInv IdsOk _
    (fun s2 e h2 => idsOk_processEntity db aid cfg s2 e h2) qes s h

theorem sharedNames_eq_foldlFilter (db : DB) (aid : Str) (qes : List Mention)
    (x : Str) :
    sharedNames db aid qes x =
      (qes.filter (contributesDirectly db aid x)).foldl
        (fun acc e => dApp acc (jsToLower e.name)) [] := by
  unfold sharedNames
  rw [List.foldl_map]

theorem sharedNames_nonempty (db : DB) (aid : Str) (qes : List Mention) (x : Str)
    (h : 1 ≤ (sharedNames db aid qes x).length) :
    ∃ e ∈ qes, contributesDirectly db aid x e = true := by
  by_contra hc
  push_neg at hc
  have hf : qes.filter (contributesDirectly db aid x) = [] := by
    apply List.filter_eq_nil_iff.mpr
    intro a ha
    simp [hc a ha]
  rw [sharedNames, hf] at h
  simp at h

theorem search_unfold (db : DB) (qes0 gaz : List Mention) (agentId : Option Str)
    (optLimit : Option Nat) (cfg : Config) (hne : mergeGaz qes0 gaz ≠ []) :
    search db qes0 gaz agentId optLimit cfg =
      { exchanges := (sortDescBy (fun r => r.score)
          (((mergeGaz qes0 gaz).foldl
              (processEntity db (jsOrStr agentId mainStr) cfg) []).filterMap
            (fun p => if minSharedEff cfg ≤ p.2.sharedEntities.length
              then some (mkRes p.2) else none))).take
          (jsOrNat optLimit (maxResultsEff cfg)),
        entities := mergeGaz qes0 gaz } := by
  simp only [search]
  rw [if_neg hne]

/-- C1.  For every query whose merged entity list is non-empty, search
accumulates per-exchange scores exactly as specified: every returned
exchange's score is the sum over query entities of the direct
contribution (effective confidence of each of the entity's fetched
triples, limit 100, carrying this exchange id) plus the co-occurrence
contribution (`cooccurrenceBoost * count` per matching triple of each
top-5 co-occurring entity, limit 20); its shared-entity list is the
lowercased names of exactly the directly-contributing query entities (so
co-occurrence-only contributions add nothing there) and its max
confidence ranges over direct hits only; exchanges with fewer than
`minSharedEntities` distinct shared entities are excluded — in
particular every survivor has at least one direct hit, so an exchange
reached only through co-occurrence expansion is excluded; survivors are
sorted by score descending and truncated to `limit`, while the returned
entity list is the full untruncated merged list. -/
theorem search_spec (db : DB) (qes0 gaz : List Mention) (agentId : Option Str)
    (optLimit : Option Nat) (cfg : Config) (hne : mergeGaz qes0 gaz ≠ []) :
    (search db qes0 gaz agentId optLimit cfg).entities = mergeGaz qes0 gaz ∧
    (search db qes0 gaz agentId optLimit cfg).exchanges.length
        ≤ jsOrNat optLimit (maxResultsEff cfg) ∧
    ((search db qes0 gaz agentId optLimit cfg).exchanges).Pairwise
        (fun a b => b.score ≤ a.score) ∧
    (∀ r ∈ (search db qes0 gaz agentId optLimit cfg).exchanges,
      r.score = totalScore db (jsOrStr agentId mainStr) cfg (mergeGaz qes0 gaz) r.id ∧
      r.sharedEntities
          = sharedNames db (jsOrStr agentId mainStr) (mergeGaz qes0 gaz) r.id ∧
      r.sharedEntityCount
          = (sharedNames db (jsOrStr agentId mainStr) (mergeGaz qes0 gaz) r.id).length ∧
      r.maxConfidence
          = maxConfChar db (jsOrStr agentId mainStr) (mergeGaz qes0 gaz) r.id ∧
      minSharedEff cfg ≤ r.sharedEntityCount ∧
      ∃ e ∈ mergeGaz qes0 gaz,
        contributesDirectly db (jsOrStr agentId mainStr) r.id e = true) ∧
    (∀ x : Str,
      (sharedNames db (jsOrStr agentId mainStr) (mergeGaz qes0 gaz) x).length
          < minSharedEff cfg →
      ∀ r ∈ (search db qes0 gaz agentId optLimit cfg).exchanges, r.id ≠ x) := by
  have hs := search_unfold db qes0 gaz agentId optLimit cfg hne
  have hkeys : (keysOf ((mergeGaz qes0 gaz).foldl
      (processEntity db (jsOrStr agentId mainStr) cfg) [])).Nodup :=
    keysNodup_mainFold _ _ _ _ [] (by simp [keysOf])
  have hids : IdsOk ((mergeGaz qes0 gaz).foldl
      (processEntity db (jsOrStr agentId mainStr) cfg) []) :=
    idsOk_mainFold _ _ _ _ [] (fun p hp => absurd hp (List.not_mem_nil p))
  have hmain : ∀ r ∈ (search db qes0 gaz agentId optLimit cfg).exchanges,
      r.score = totalScore db (jsOrStr agentId mainStr) cfg (mergeGaz qes0 gaz) r.id ∧
      r.sharedEntities
          = sharedNames db (jsOrStr agentId mainStr) (mergeGaz qes0 gaz) r.id ∧
      r.sharedEntityCount
          = (sharedNames db (jsOrStr agentId mainStr) (mergeGaz qes0 gaz) r.id).length ∧
      r.maxConfidence
          = maxConfChar db (jsOrStr agentId mainStr) (mergeGaz qes0 gaz) r.id ∧
      minSharedEff cfg ≤ r.sharedEntityCount ∧
      ∃ e ∈ mergeGaz qes0 gaz,
        contributesDirectly db (jsOrStr agentId mainStr) r.id e = true := by
    intro r hr
    rw [hs] at hr
    simp only at hr
    have hr1 : r ∈ sortDescBy (fun r => r.score)
        (((mergeGaz qes0 gaz).foldl
            (processEntity db (jsOrStr agentId mainStr) cfg) []).filterMap
          (fun p => if minSharedEff cfg ≤ p.2.sharedEntities.length
            then some (mkRes p.2) else none)) := List.mem_of_mem_take hr
    have hr2 := (mem_sortDescBy _ r _).mp hr1
    rcases List.mem_filterMap.mp hr2 with ⟨p, hp, hpr⟩
    by_cases hcond : minSharedEff cfg ≤ p.2.sharedEntities.length
    · rw [if_pos hcond] at hpr
      have hrr : r = mkRes p.2 := (Option.some.inj hpr).symm
      have hpid : p.2.id = p.1 := hids p hp
      have hlook : lookupEntry ((mergeGaz qes0 gaz).foldl
          (processEntity db (jsOrStr agentId mainStr) cfg) []) p.1 = some p.2 :=
        mem_lookupEntry _ p.1 p.2 hkeys hp
      have hD : entryD ((mergeGaz qes0 gaz).foldl
          (processEntity db (jsOrStr agentId mainStr) cfg) []) p.1 = p.2 := by
        unfold entryD
        rw [hlook]
        rfl
      have hscore : p.2.score
          = totalScore db (jsOrStr agentId mainStr) cfg (mergeGaz qes0 gaz) p.1 := by
        have h1 := scoreOf_mainFold db (jsOrStr agentId mainStr) cfg
          (mergeGaz qes0 gaz) [] p.1
        unfold scoreOf at h1
        rw [hD] at h1
        simpa [entryD, lookupEntry, initEntry] using h1
      have hshared : p.2.sharedEntities
          = sharedNames db (jsOrStr agentId mainStr) (mergeGaz qes0 gaz) p.1 := by
        have h1 := sharedOf_mainFold db (jsOrStr agentId mainStr) cfg
          (mergeGaz qes0 gaz) [] p.1
        unfold sharedOf at h1
        rw [hD] at h1
        rw [sharedNames_eq_foldlFilter]
        simpa [entryD, lookupEntry, initEntry] using h1
      have hmaxc : p.2.maxConfidence
          = maxConfChar db (jsOrStr agentId mainStr) (mergeGaz qes0 gaz) p.1 := by
        have h1 := maxcOf_mainFold db (jsOrStr agentId mainStr) cfg
          (mergeGaz qes0 gaz) [] p.1
        unfold maxcOf at h1
        rw [hD] at h1
        unfold maxConfChar
        simpa [entryD, lookupEntry, initEntry] using h1
      have hridp : r.id = p.1 := by
        rw [hrr]
        simpa [mkRes] using hpid
      refine ⟨?_, ?_, ?_, ?_, ?_, ?_⟩
      · rw [hrr]
        simp only [mkRes]
        rw [hpid]
        exact hscore
      · rw [hrr]
        simp only [mkRes]
        rw [hpid]
        exact hshared
      · rw [hrr]
        simp only [mkRes]
        rw [hpid, hshared]
      · rw [hrr]
        simp only [mkRes]
        rw [hpid]
        exact hmaxc
      · rw [hrr]
        simpa [mkRes] using hcond
      · rw [hridp]
        apply sharedNames_nonempty
        rw [← hshared]
        exact le_trans (minSharedEff_pos cfg) hcond
    · rw [if_neg hcond] at hpr
      exact absurd hpr (by simp)
  refine ⟨?_, ?_, ?_, hmain, ?_⟩
  · rw [hs]
  · rw [hs]
    exact List.length_take_le _ _
  · rw [hs]
    exact List.Pairwise.sublist (List.take_sublist _ _) (sorted_sortDescBy _ _)
  · intro x hx r hr heq
    rcases hmain r hr with ⟨_, _, hcount, _, hge, _⟩
    rw [heq] at hcount
    omega

/-- Witness for C1: on the concrete one-triple store, the merged entity
list of the `alice` query is non-empty and search returns it untruncated. -/
theorem search_spec_witness :
    mergeGaz wQes [] ≠ [] ∧
    (search wDB wQes [] none none wCfg).entities = mergeGaz wQes [] :=
  ⟨by decide, (search_spec wDB wQes [] none none wCfg (by decide)).1⟩

theorem lcCode_idem (n : Nat) : lcCode (lcCode n) = lcCode n := by
  unfold lcCode
  by_cases h : 65 ≤ n ∧ n ≤ 90
  · rw [if_pos h, if_neg (by omega)]
  · rw [if_neg h, if_neg h]

theorem jsToLower_idem (s : Str) : jsToLower (jsToLower s) = jsToLower s := by
  induction s with
  | nil => rfl
  | cons c cs ih =>
    unfold jsToLower at ih ⊢
    simp only [List.map_cons]
    rw [lcCode_idem, ih]

theorem isWS_collapseAux (b : Bool) (s : Str) (c : Nat)
    (h : c ∈ collapseAux b s) : isWS c = false := by
  induction s generalizing b with
  | nil => simp [collapseAux] at h
  | cons d ds ih =>
    simp only [collapseAux] at h
    by_cases hw : isWS d = true
    · rw [if_pos hw] at h
      cases b with
      | true => exact ih true (by simpa using h)
      | false =>
        simp only [Bool.false_eq_true, if_false] at h
        rcases List.mem_cons.mp h with rfl | h'
        · decide
        · exact ih true h'
    · rw [Bool.not_eq_true] at hw
      rw [hw] at h
      simp only [Bool.false_eq_true, if_false] at h
      rcases List.mem_cons.mp h with rfl | h'
      · exact hw
      · exact ih false h'

theorem mem_collapseAux (b : Bool) (s : Str) (c : Nat)
    (h : c ∈ collapseAux b s) : c = 95 ∨ c ∈ s := by
  induction s generalizing b with
  | nil => simp [collapseAux] at h
  | cons d ds ih =>
    simp only [collapseAux] at h
    by_cases hw : isWS d = true
    · rw [if_pos hw] at h
      cases b with
      | true =>
        rcases ih true (by simpa using h) with h1 | h2
        · exact Or.inl h1
        · exact Or.inr (List.mem_cons_of_mem _ h2)
      | false =>
        simp only [Bool.false_eq_true, if_false] at h
        rcases List.mem_cons.mp h with rfl | h'
        · exact Or.inl rfl
        · rcases ih true h' with h1 | h2
          · exact Or.inl h1
          · exact Or.inr (List.mem_cons_of_mem _ h2)
    · rw [Bool.not_eq_true] at hw
      rw [hw] at h
      simp only [Bool.false_eq_true, if_false] at h
      rcases List.mem_cons.mp h with rfl | h'
      · exact Or.inr (List.mem_cons_self _ _)
      · rcases ih false h' with h1 | h2
        · exact Or.inl h1
        · exact Or.inr (List.mem_cons_of_mem _ h2)

theorem collapseAux_eq_self (b : Bool) (s : Str)
    (h : ∀ c ∈ s, isWS c = false) : collapseAux b s = s := by
  induction s generalizing b with
  | nil => rfl
  | cons d ds ih =>
    simp only [collapseAux]
    rw [h d (List.mem_cons_self _ _)]
    simp only [Bool.false_eq_true, if_false]
    rw [ih false (fun c hc => h c (List.mem_cons_of_mem _ hc))]

theorem dropWhile_isWS_eq_self (s : Str) (h : ∀ c ∈ s, isWS c = false) :
    s.dropWhile (fun c => isWS c) = s := by
  cases s with
  | nil => rfl
  | cons c cs =>
    rw [List.dropWhile_cons]
    rw [h c (List.mem_cons_self _ _)]
    simp

theorem trimWS_eq_self (s : Str) (h : ∀ c ∈ s, isWS c = false) : trimWS s = s := by
  unfold trimWS
  rw [dropWhile_isWS_eq_self s h]
  rw [dropWhile_isWS_eq_self s.reverse (fun c hc => h c (List.mem_reverse.mp hc))]
  exact List.reverse_reverse s

theorem map_lcCode_fixed (l : Str) (h : ∀ c ∈ l, lcCode c = c) : l.map lcCode = l := by
  induction l with
  | nil => rfl
  | cons c cs ih =>
    rw [List.map_cons, h c (List.mem_cons_self _ _),
      ih (fun d hd => h d (List.mem_cons_of_mem _ hd))]

theorem mem_trimWS (s : Str) (c : Nat) (h : c ∈ trimWS s) : c ∈ s := by
  unfold trimWS at h
  have h1 := List.mem_reverse.mp h
  have h2 := (List.dropWhile_sublist (l := (s.dropWhile (fun c => isWS c)).reverse)
    (p := fun c => isWS c)).mem h1
  have h3 := List.mem_reverse.mp h2
  exact (List.dropWhile_sublist (l := s) (p := fun c => isWS c)).mem h3

/-- C8.  `normalizeEntityId` is a pure total function: it is idempotent
(normalizing an already-normalized id returns it unchanged), it is
case-insensitive (lowercasing the input first does not change the
result), and on the spec's example `' Foo  Bar '` and `'foo bar'`
normalize to the same id. -/
theorem normalizeEntityId_spec :
    (∀ s : Str, normalizeEntityId (normalizeEntityId s) = normalizeEntityId s) ∧
    (∀ s : Str, normalizeEntityId (jsToLower s) = normalizeEntityId s) ∧
    normalizeEntityId wFooBarSpaced = normalizeEntityId wFooBarPlain := by
  refine ⟨?_, ?_, by decide⟩
  · intro s
    have hnw : ∀ c ∈ normalizeEntityId s, isWS c = false := by
      intro c hc
      exact isWS_collapseAux false _ c hc
    have hlf : jsToLower (normalizeEntityId s) = normalizeEntityId s := by
      apply map_lcCode_fixed
      intro c hc
      rcases mem_collapseAux false _ c hc with h95 | hmemtrim
      · subst h95
        decide
      · have hlow := mem_trimWS _ c hmemtrim
        rcases List.mem_map.mp hlow with ⟨d, _, rfl⟩
        exact lcCode_idem d
    show collapseWS (trimWS (jsToLower (normalizeEntityId s))) = normalizeEntityId s
    rw [hlf, trimWS_eq_self _ hnw]
    exact collapseAux_eq_self false _ hnw
  · intro s
    show collapseWS (trimWS (jsToLower (jsToLower s))) = normalizeEntityId s
    rw [jsToLower_idem]
    rfl

theorem find?_append_none {α : Type} (p : α → Bool) (l1 l2 : List α)
    (h : l1.find? p = none) : (l1 ++ l2).find? p = l2.find? p := by
  induction l1 with
  | nil => rfl
  | cons t ts ih =>
    cases hp : p t with
    | true =>
      rw [List.find?_cons_of_pos ts hp] at h
      exact absurd h (by simp)
    | false =>
      rw [List.find?_cons_of_neg ts (by simp [hp])] at h
      rw [List.cons_append, List.find?_cons_of_neg (ts ++ l2) (by simp [hp])]
      exact ih h

theorem addTriple_fresh (db : DB) (inp : TripleIn) (now : Nat) (today : Str)
    (h : findTriple db (normalizeEntityId inp.subject) inp.predicate
      (normalizeEntityId inp.object) (jsOrStr inp.agentId mainStr) = none) :
    addTriple db inp now today =
      (db.nextId,
       { db with
         triples := db.triples ++
           [{ id := db.nextId, subject := normalizeEntityId inp.subject,
              predicate := inp.predicate, object := normalizeEntityId inp.object,
              confidence := jsOrRat inp.confidence 1,
              sourceExchangeId := jsStrOpt inp.sourceExchangeId,
              sourceDate := some (jsOrStr inp.sourceDate today),
              createdAt := now, updatedAt := now,
              agentId := jsOrStr inp.agentId mainStr,
              pendingResolution := inp.pendingResolution }],
         nextId := db.nextId + 1 }) := by
  simp only [addTriple]
  rw [h]

theorem addTriple_found (db : DB) (inp : TripleIn) (now : Nat) (today : Str)
    (ex : Triple)
    (h : findTriple db (normalizeEntityId inp.subject) inp.predicate
      (normalizeEntityId inp.object) (jsOrStr inp.agentId mainStr) = some ex) :
    addTriple db inp now today
      = (ex.id, updateTripleConfidence db (jsOrRat inp.confidence 1) ex.id now) := by
  simp only [addTriple]
  rw [h]

theorem map_updateConf_of_lt (l : List Triple) (i : Nat) (conf : ℚ) (now : Nat)
    (h : ∀ t ∈ l, t.id < i) :
    l.map (fun t => if t.id = i
        then { t with confidence := max t.confidence conf, updatedAt := now }
        else t) = l := by
  induction l with
  | nil => rfl
  | cons t ts ih =>
    rw [List.map_cons,
      if_neg (Nat.ne_of_lt (h t (List.mem_cons_self _ _))),
      ih (fun u hu => h u (List.mem_cons_of_mem _ hu))]

/-- C2.  Two addTriple calls whose keys (subject, predicate, object,
agentId) agree after normalization, starting from a store with no row for
that key: the second call creates no new row (it returns the first call's
id and leaves nextId at one insertion), refreshes `updatedAt`, and leaves
the single stored row's confidence at the maximum of the two effective
confidences — the same value in whichever order the two confidences are
supplied, and never below the first confidence. -/
theorem addTriple_dedup_max (db : DB) (inp1 inp2 : TripleIn)
    (now1 now2 : Nat) (today1 today2 : Str)
    (hks : normalizeEntityId inp2.subject = normalizeEntityId inp1.subject)
    (hkp : inp2.predicate = inp1.predicate)
    (hko : normalizeEntityId inp2.object = normalizeEntityId inp1.object)
    (hka : jsOrStr inp2.agentId mainStr = jsOrStr inp1.agentId mainStr)
    (hfresh : findTriple db (normalizeEntityId inp1.subject) inp1.predicate
      (normalizeEntityId inp1.object) (jsOrStr inp1.agentId mainStr) = none)
    (hlt : ∀ t ∈ db.triples, t.id < db.nextId) :
    (addTriple (addTriple db inp1 now1 today1).2 inp2 now2 today2).1
        = (addTriple db inp1 now1 today1).1 ∧
    (addTriple (addTriple db inp1 now1 today1).2 inp2 now2 today2).2.triples
      = db.triples ++
        [{ id := db.nextId, subject := normalizeEntityId inp1.subject,
           predicate := inp1.predicate, object := normalizeEntityId inp1.object,
           confidence := max (jsOrRat inp1.confidence 1) (jsOrRat inp2.confidence 1),
           sourceExchangeId := jsStrOpt inp1.sourceExchangeId,
           sourceDate := some (jsOrStr inp1.sourceDate today1),
           createdAt := now1, updatedAt := now2,
           agentId := jsOrStr inp1.agentId mainStr,
           pendingResolution := inp1.pendingResolution }] ∧
    (addTriple (addTriple db inp1 now1 today1).2 inp2 now2 today2).2.nextId
        = db.nextId + 1 ∧
    jsOrRat inp1.confidence 1
        ≤ max (jsOrRat inp1.confidence 1) (jsOrRat inp2.confidence 1) ∧
    (addTriple (addTriple db inp2 now1 today1).2 inp1 now2 today2).2.triples
      = db.triples ++
        [{ id := db.nextId, subject := normalizeEntityId inp2.subject,
           predicate := inp2.predicate, object := normalizeEntityId inp2.object,
           confidence := max (jsOrRat inp1.confidence 1) (jsOrRat inp2.confidence 1),
           sourceExchangeId := jsStrOpt inp2.sourceExchangeId,
           sourceDate := some (jsOrStr inp2.sourceDate today1),
           createdAt := now1, updatedAt := now2,
           agentId := jsOrStr inp2.agentId mainStr,
           pendingResolution := inp2.pendingResolution }] := by
  have hfresh2 : findTriple db (normalizeEntityId inp2.subject) inp2.predicate
      (normalizeEntityId inp2.object) (jsOrStr inp2.agentId mainStr) = none := by
    rw [hks, hkp, hko, hka]
    exact hfresh
  have h1 := addTriple_fresh db inp1 now1 today1 hfresh
  have h2 := addTriple_fresh db inp2 now1 today1 hfresh2
  have hfind2 : findTriple (addTriple db inp1 now1 today1).2
      (normalizeEntityId inp2.subject) inp2.predicate
      (normalizeEntityId inp2.object) (jsOrStr inp2.agentId mainStr)
      = some { id := db.nextId, subject := normalizeEntityId inp1.subject,
               predicate := inp1.predicate, object := normalizeEntityId inp1.object,
               confidence := jsOrRat inp1.confidence 1,
               sourceExchangeId := jsStrOpt inp1.sourceExchangeId,
               sourceDate := some (jsOrStr inp1.sourceDate today1),
               createdAt := now1, updatedAt := now1,
               agentId := jsOrStr inp1.agentId mainStr,
               pendingResolution := inp1.pendingResolution } := by
    rw [hks, hkp, hko, hka, h1]
    unfold findTriple at hfresh ⊢
    simp only
    rw [find?_append_none _ _ _ hfresh]
    simp
  have hfind1 : findTriple (addTriple db inp2 now1 today1).2
      (normalizeEntityId inp1.subject) inp1.predicate
      (normalizeEntityId inp1.object) (jsOrStr inp1.agentId mainStr)
      = some { id := db.nextId, subject := normalizeEntityId inp2.subject,
               predicate := inp2.predicate, object := normalizeEntityId inp2.object,
               confidence := jsOrRat inp2.confidence 1,
               sourceExchangeId := jsStrOpt inp2.sourceExchangeId,
               sourceDate := some (jsOrStr inp2.sourceDate today1),
               createdAt := now1, updatedAt := now1,
               agentId := jsOrStr inp2.agentId mainStr,
               pendingResolution := inp2.pendingResolution } := by
    rw [← hks, ← hkp, ← hko, ← hka, h2]
    unfold findTriple at hfresh2 ⊢
    simp only
    rw [find?_append_none _ _ _ hfresh2]
    simp
  have hupd2 := addTriple_found (addTriple db inp1 now1 today1).2 inp2 now2 today2 _ hfind2
  have hupd1 := addTriple_found (addTriple db inp2 now1 today1).2 inp1 now2 today2 _ hfind1
  refine ⟨?_, ?_, ?_, le_max_left _ _, ?_⟩
  · rw [hupd2, h1]
  · rw [hupd2]
    unfold updateTripleConfidence
    simp only
    rw [h1]
    simp only [List.map_append, List.map_cons, List.map_nil]
    rw [map_updateConf_of_lt db.triples db.nextId _ now2 hlt]
    simp
  · rw [hupd2]
    unfold updateTripleConfidence
    simp only
    rw [h1]
  · rw [hupd1]
    unfold updateTripleConfidence
    simp only
    rw [h2]
    simp only [List.map_append, List.map_cons, List.map_nil]
    rw [map_updateConf_of_lt db.triples db.nextId _ now2 hlt]
    rw [max_comm]
    simp

/-- Witness for C2: concrete duplicate addTriple calls (raw subjects
`'Alice'` then `'alice'`, confidences 0.6 then 0.9) return the same id. -/
theorem addTriple_dedup_max_witness :
    (addTriple (addTriple wEmptyDB wInp1 1 wDate).2 wInp2 2 wDate).1
      = (addTriple wEmptyDB wInp1 1 wDate).1 :=
  (addTriple_dedup_max wEmptyDB wInp1 wInp2 1 2 wDate wDate (by decide) (by decide)
    (by decide) (by decide) (by decide) (by decide)).1

theorem find?_map_update (l : List Entity) (id : Str) (now : Nat) :
    (l.map (fun e => if e.id = id
        then { e with lastSeen := now, mentionCount := e.mentionCount + 1 }
        else e)).find? (fun e => e.id == id)
      = (l.find? (fun e => e.id == id)).map
          (fun e => { e with lastSeen := now, mentionCount := e.mentionCount + 1 }) := by
  induction l with
  | nil => rfl
  | cons e es ih =>
    by_cases h : e.id = id
    · simp [h]
    · simp [h, ih]

theorem upsertEntityRow_existing (db : DB) (id name ty aid : Str) (now : Nat)
    (e0 : Entity) (hex : db.entities.find? (fun e => e.id == id) = some e0) :
    upsertEntityRow db id name ty aid now =
      { db with entities := db.entities.map (fun e => if e.id = id
          then { e with lastSeen := now, mentionCount := e.mentionCount + 1 }
          else e) } := by
  unfold upsertEntityRow
  rw [if_pos ?_]
  have hmem := List.mem_of_find?_eq_some hex
  have hprop := List.find?_some hex
  exact List.any_eq_true.mpr ⟨e0, hmem, hprop⟩

/-- C10.  When upsertEntity is called for an id that already exists, only
the row's lastSeen and mentionCount change (mentionCount increments by
exactly 1 and the whole table keeps mentionCount at least 1); the row's
canonicalName, entityType, firstSeen, aliases, metadata, and agentId keep
the values from its first insertion, whatever raw name and type the new
call supplies; no row is added or removed, other rows are untouched, and
the other tables are untouched. -/
theorem upsertEntity_existing_frame (db : DB) (name : Str) (ty agentId : Option Str)
    (now : Nat) (e0 : Entity)
    (hex : db.entities.find? (fun e => e.id == normalizeEntityId name) = some e0)
    (hmc : ∀ e ∈ db.entities, 1 ≤ e.mentionCount) :
    (upsertEntity db name ty agentId now).1 = normalizeEntityId name ∧
    (upsertEntity db name ty agentId now).2.entities.find?
        (fun e => e.id == normalizeEntityId name)
      = some { e0 with lastSeen := now, mentionCount := e0.mentionCount + 1 } ∧
    (upsertEntity db name ty agentId now).2.entities.length = db.entities.length ∧
    (∀ e ∈ db.entities, e.id ≠ normalizeEntityId name →
      e ∈ (upsertEntity db name ty agentId now).2.entities) ∧
    (∀ e ∈ (upsertEntity db name ty agentId now).2.entities, 1 ≤ e.mentionCount) ∧
    (upsertEntity db name ty agentId now).2.triples = db.triples ∧
    (upsertEntity db name ty agentId now).2.coocs = db.coocs := by
  have hrow := upsertEntityRow_existing db (normalizeEntityId name) name
    (jsOrStr ty conceptStr) (jsOrStr agentId mainStr) now e0 hex
  have hunf : (upsertEntity db name ty agentId now).2
      = upsertEntityRow db (normalizeEntityId name) name
          (jsOrStr ty conceptStr) (jsOrStr agentId mainStr) now := rfl
  refine ⟨rfl, ?_, ?_, ?_, ?_, ?_, ?_⟩
  · rw [hunf, hrow]
    simp only
    rw [find?_map_update, hex]
    rfl
  · rw [hunf, hrow]
    simp [List.length_map]
  · intro e he hne
    rw [hunf, hrow]
    simp only
    exact List.mem_map.mpr ⟨e, he, by rw [if_neg hne]⟩
  · intro e he
    rw [hunf, hrow] at he
    simp only at he
    rcases List.mem_map.mp he with ⟨e1, he1, rfl⟩
    by_cases h : e1.id = normalizeEntityId name
    · rw [if_pos h]
      simp
    · rw [if_neg h]
      exact hmc e1 he1
  · rw [hunf, hrow]
  · rw [hunf, hrow]

/-- Witness for C10: upserting `'ALICE'` (different raw casing and a
different type) onto the existing `'alice'` row keeps the stored
canonical name `'Alice'` and only bumps lastSeen/mentionCount. -/
theorem upsertEntity_existing_frame_witness :
    (upsertEntity wEntDB [65, 76, 73, 67, 69] none none 7).2.entities.find?
        (fun e => e.id == normalizeEntityId [65, 76, 73, 67, 69])
      = some { wEntAlice with lastSeen := 7, mentionCount := 2 } :=
  (upsertEntity_existing_frame wEntDB [65, 76, 73, 67, 69] none none 7 wEntAlice
    (by decide) (by decide)).2.1

/-- C4 counterexample: upserting the same canonical name under two
different agent ids in the same store yields ONE row, not two — the
second call conflicts on the id primary key, so the row count is 1, the
surviving row still carries the first agent id, and its mention count
became 2. -/
theorem upsertEntity_crossAgent_counterexample :
    (upsertEntity (upsertEntity wEmptyDB wAliceCap (some wPerson) (some wAg1) 1).2
        wAlice (some wPerson) (some wAg2) 2).2.entities.length = 1 ∧
    ((upsertEntity (upsertEntity wEmptyDB wAliceCap (some wPerson) (some wAg1) 1).2
        wAlice (some wPerson) (some wAg2) 2).2.entities.map (fun e => e.agentId))
      = [wAg1] ∧
    ((upsertEntity (upsertEntity wEmptyDB wAliceCap (some wPerson) (some wAg1) 1).2
        wAlice (some wPerson) (some wAg2) 2).2.entities.map (fun e => e.mentionCount))
      = [2] := by
  decide

theorem map_updateSeen_of_nomatch (l : List Entity) (id : Str) (now : Nat)
    (h : ∀ e ∈ l, ¬ e.id = id) :
    l.map (fun e => if e.id = id
        then { e with lastSeen := now, mentionCount := e.mentionCount + 1 }
        else e) = l := by
  induction l with
  | nil => rfl
  | cons e es ih =>
    rw [List.map_cons, if_neg (h e (List.mem_cons_self _ _)),
      ih (fun u hu => h u (List.mem_cons_of_mem _ hu))]

theorem upsertEntityRow_fresh (db : DB) (id name ty aid : Str) (now : Nat)
    (habs : db.entities.find? (fun e => e.id == id) = none) :
    upsertEntityRow db id name ty aid now =
      { db with entities := db.entities ++
          [{ id := id, canonicalName := name, entityType := ty, firstSeen := now,
             lastSeen := now, mentionCount := 1, aliases := aliasesLit,
             metadata := none, agentId := aid }] } := by
  unfold upsertEntityRow
  rw [if_neg ?_]
  intro hc
  rcases List.any_eq_true.mp hc with ⟨e, hmem, hprop⟩
  rw [List.find?_eq_none] at habs
  exact habs e hmem hprop

/-- C4 (amended).  Upserting the same canonical name (same normalized id)
under two different agent ids in the same store produces a single entity
row: the second call conflicts on the id primary key and only bumps
mentionCount/lastSeen, so the one row keeps the first call's raw
canonical name, type and agent id and reaches mentionCount 2.  Per-agent
entity isolation comes from each agent owning a separate store file, not
from the entities table. -/
theorem upsertEntity_crossAgent_singleRow (db : DB) (name1 name2 : Str)
    (ty1 ty2 a1 a2 : Option Str) (now1 now2 : Nat)
    (hnorm : normalizeEntityId name2 = normalizeEntityId name1)
    (habs : db.entities.find? (fun e => e.id == normalizeEntityId name1) = none) :
    (upsertEntity (upsertEntity db name1 ty1 a1 now1).2 name2 ty2 a2 now2).2.entities
      = db.entities ++
        [{ id := normalizeEntityId name1, canonicalName := name1,
           entityType := jsOrStr ty1 conceptStr, firstSeen := now1,
           lastSeen := now2, mentionCount := 2, aliases := aliasesLit,
           metadata := none, agentId := jsOrStr a1 mainStr }] ∧
    (upsertEntity (upsertEntity db name1 ty1 a1 now1).2 name2 ty2 a2 now2).2.entities.length
      = db.entities.length + 1 := by
  have h1 : (upsertEntity db name1 ty1 a1 now1).2
      = upsertEntityRow db (normalizeEntityId name1) name1
          (jsOrStr ty1 conceptStr) (jsOrStr a1 mainStr) now1 := rfl
  have hrow1 := upsertEntityRow_fresh db (normalizeEntityId name1) name1
    (jsOrStr ty1 conceptStr) (jsOrStr a1 mainStr) now1 habs
  have hnomatch : ∀ e ∈ db.entities, ¬ e.id = normalizeEntityId name1 := by
    intro e he hc
    rw [List.find?_eq_none] at habs
    exact habs e he (by simp [hc])
  have hfind2 : (upsertEntity db name1 ty1 a1 now1).2.entities.find?
      (fun e => e.id == normalizeEntityId name2)
      = some { id := normalizeEntityId name1, canonicalName := name1,
               entityType := jsOrStr ty1 conceptStr, firstSeen := now1,
               lastSeen := now1, mentionCount := 1, aliases := aliasesLit,
               metadata := none, agentId := jsOrStr a1 mainStr } := by
    rw [hnorm, h1, hrow1]
    simp only
    rw [find?_append_none _ _ _ habs]
    simp
  have h2 : (upsertEntity (upsertEntity db name1 ty1 a1 now1).2 name2 ty2 a2 now2).2
      = upsertEntityRow (upsertEntity db name1 ty1 a1 now1).2
          (normalizeEntityId name2) name2
          (jsOrStr ty2 conceptStr) (jsOrStr a2 mainStr) now2 := rfl
  have hrow2 := upsertEntityRow_existing (upsertEntity db name1 ty1 a1 now1).2
    (normalizeEntityId name2) name2 (jsOrStr ty2 conceptStr)
    (jsOrStr a2 mainStr) now2 _ hfind2
  constructor
  · rw [h2, hrow2]
    simp only
    rw [hnorm, h1, hrow1]
    simp only
    rw [List.map_append,
      map_updateSeen_of_nomatch db.entities (normalizeEntityId name1) now2 hnomatch]
    simp
  · rw [h2, hrow2]
    simp only [List.length_map]
    rw [h1, hrow1]
    simp

/-- Witness for C4's amended claim: on the empty store, upserting
`'Alice'` under agent a1 and `'alice'` under agent a2 leaves exactly one
row, still owned by a1 with mentionCount 2. -/
theorem upsertEntity_crossAgent_singleRow_witness :
    (upsertEntity (upsertEntity wEmptyDB wAliceCap (some wPerson) (some wAg1) 1).2
        wAlice (some wPerson) (some wAg2) 2).2.entities.length
      = wEmptyDB.entities.length + 1 :=
  (upsertEntity_crossAgent_singleRow wEmptyDB wAliceCap wAlice (some wPerson)
    (some wPerson) (some wAg1) (some wAg2) 1 2 (by decide) (by decide)).2

/-- C5 counterexample: getTriplesFor is NOT globally ordered
most-recently-updated first — with entity `'e'` subject of an old triple
(updated at 50) and object of a newer one (updated at 100), the result is
the subject scan followed by the object scan, i.e. updated-at sequence
[50, 100], which is not descending. -/
theorem getTriplesFor_order_counterexample :
    (getTriplesFor w5DB wE none none).map (fun t => t.updatedAt) = [50, 100] ∧
    ¬ ((getTriplesFor w5DB wE none none).map (fun t => t.updatedAt)).Pairwise
        (fun a b => b ≤ a) := by
  decide

/-- C5 (amended).  getTriplesFor returns the union of the subject scan
and the object scan deduplicated by triple id: each triple id appears at
most once (a self-referential triple appears once), each of the two
underlying scans is independently capped at `limit || 50` and is itself
ordered most-recently-updated first, every result row is one of the two
scans' rows (so it touches the normalized entity under the requested
agent), every scanned row survives up to id-dedup, and the total size is
at most 2×limit — but the concatenated result is not globally ordered by
update time (see the counterexample). -/
theorem getTriplesFor_spec (db : DB) (entityName : Str) (agentId : Option Str)
    (limit : Option Nat) :
    ((getTriplesFor db entityName agentId limit).map (fun t => t.id)).Nodup ∧
    (getTriplesFor db entityName agentId limit).length ≤ 2 * jsOrNat limit 50 ∧
    (∀ t ∈ getTriplesFor db entityName agentId limit,
      t ∈ subjectScan db (normalizeEntityId entityName) (jsOrStr agentId mainStr)
          (jsOrNat limit 50) ∨
      t ∈ objectScan db (normalizeEntityId entityName) (jsOrStr agentId mainStr)
          (jsOrNat limit 50)) ∧
    (∀ t ∈ subjectScan db (normalizeEntityId entityName) (jsOrStr agentId mainStr)
          (jsOrNat limit 50) ++
        objectScan db (normalizeEntityId entityName) (jsOrStr agentId mainStr)
          (jsOrNat limit 50),
      ∃ u ∈ getTriplesFor db entityName agentId limit, u.id = t.id) ∧
    (subjectScan db (normalizeEntityId entityName) (jsOrStr agentId mainStr)
        (jsOrNat limit 50)).Pairwise (fun a b => b.updatedAt ≤ a.updatedAt) ∧
    (objectScan db (normalizeEntityId entityName) (jsOrStr agentId mainStr)
        (jsOrNat limit 50)).Pairwise (fun a b => b.updatedAt ≤ a.updatedAt) ∧
    (subjectScan db (normalizeEntityId entityName) (jsOrStr agentId mainStr)
        (jsOrNat limit 50)).length ≤ jsOrNat limit 50 ∧
    (objectScan db (normalizeEntityId entityName) (jsOrStr agentId mainStr)
        (jsOrNat limit 50)).length ≤ jsOrNat limit 50 ∧
    (∀ t ∈ getTriplesFor db entityName agentId limit,
      (t.subject = normalizeEntityId entityName ∨
        t.object = normalizeEntityId entityName) ∧
      t.agentId = jsOrStr agentId mainStr) := by
  have hsub : ∀ t ∈ subjectScan db (normalizeEntityId entityName)
      (jsOrStr agentId mainStr) (jsOrNat limit 50),
      t.subject = normalizeEntityId entityName ∧ t.agentId = jsOrStr agentId mainStr := by
    intro t ht
    have h1 := List.mem_of_mem_take ht
    have h2 := (mem_sortDescBy _ t _).mp h1
    have h3 := List.mem_filter.mp h2
    have h4 := h3.2
    simp only [Bool.and_eq_true, beq_iff_eq] at h4
    exact h4
  have hobj : ∀ t ∈ objectScan db (normalizeEntityId entityName)
      (jsOrStr agentId mainStr) (jsOrNat limit 50),
      t.object = normalizeEntityId entityName ∧ t.agentId = jsOrStr agentId mainStr := by
    intro t ht
    have h1 := List.mem_of_mem_take ht
    have h2 := (mem_sortDescBy _ t _).mp h1
    have h3 := List.mem_filter.mp h2
    have h4 := h3.2
    simp only [Bool.and_eq_true, beq_iff_eq] at h4
    exact h4
  have hmem : ∀ t ∈ getTriplesFor db entityName agentId limit,
      t ∈ subjectScan db (normalizeEntityId entityName) (jsOrStr agentId mainStr)
          (jsOrNat limit 50) ∨
      t ∈ objectScan db (normalizeEntityId entityName) (jsOrStr agentId mainStr)
          (jsOrNat limit 50) := by
    intro t ht
    exact List.mem_append.mp (mem_dedupByIdAux [] _ t ht)
  refine ⟨?_, ?_, hmem, ?_, ?_, ?_, ?_, ?_, ?_⟩
  · exact nodup_ids_dedupByIdAux [] _
  · calc (getTriplesFor db entityName agentId limit).length
        ≤ (subjectScan db (normalizeEntityId entityName) (jsOrStr agentId mainStr)
            (jsOrNat limit 50) ++
           objectScan db (normalizeEntityId entityName) (jsOrStr agentId mainStr)
            (jsOrNat limit 50)).length := length_dedupByIdAux [] _
      _ ≤ 2 * jsOrNat limit 50 := by
          rw [List.length_append]
          have hs := List.length_take_le (jsOrNat limit 50)
            (sortDescBy (fun t => t.updatedAt) (db.triples.filter
              (fun t => t.subject == normalizeEntityId entityName &&
                t.agentId == jsOrStr agentId mainStr)))
          have ho := List.length_take_le (jsOrNat limit 50)
            (sortDescBy (fun t => t.updatedAt) (db.triples.filter
              (fun t => t.object == normalizeEntityId entityName &&
                t.agentId == jsOrStr agentId mainStr)))
          unfold subjectScan objectScan
          omega
  · intro t ht
    rcases covered_dedupByIdAux [] _ t ht with hs | h
    · simp at hs
    · exact h
  · exact List.Pairwise.sublist (List.take_sublist _ _) (sorted_sortDescBy _ _)
  · exact List.Pairwise.sublist (List.take_sublist _ _) (sorted_sortDescBy _ _)
  · exact List.length_take_le _ _
  · exact List.length_take_le _ _
  · intro t ht
    rcases hmem t ht with h | h
    · exact ⟨Or.inl (hsub t h).1, (hsub t h).2⟩
    · exact ⟨Or.inr (hobj t h).1, (hobj t h).2⟩

/-- Witness for C5's amended claim: on the concrete two-triple store the
result's triple ids are duplicate-free. -/
theorem getTriplesFor_spec_witness :
    ((getTriplesFor w5DB wE none none).map (fun t => t.id)).Nodup :=
  (getTriplesFor_spec w5DB wE none none).1

/-- C6.  getStats scopes entityCount, tripleCount and recentEntities to
the requested agent, but its topCooccurrences (top 10 by count, at most
10 rows, all drawn from the cooccurrences table) is identical whatever
agent id is passed — co-occurrence rows carry no agent id at all. -/
theorem getStats_scoping (db : DB) (a b : Option Str) :
    (getStats db a).topCooccurrences = (getStats db b).topCooccurrences ∧
    (getStats db a).entityCount
      = (db.entities.filter (fun e => e.agentId == jsOrStr a mainStr)).length ∧
    (getStats db a).tripleCount
      = (db.triples.filter (fun t => t.agentId == jsOrStr a mainStr)).length ∧
    (∀ e ∈ (getStats db a).recentEntities, e.agentId = jsOrStr a mainStr) ∧
    (getStats db a).recentEntities.length ≤ 10 ∧
    (∀ c ∈ (getStats db a).topCooccurrences, c ∈ db.coocs) ∧
    (getStats db a).topCooccurrences.length ≤ 10 := by
  refine ⟨rfl, rfl, rfl, ?_, List.length_take_le _ _, ?_, List.length_take_le _ _⟩
  · intro e he
    have h1 := List.mem_of_mem_take he
    have h2 := (mem_sortDescBy _ e _).mp h1
    have h3 := List.mem_filter.mp h2
    simpa using h3.2
  · intro c hc
    have h1 := List.mem_of_mem_take hc
    exact (mem_sortDescBy _ c _).mp h1

/-- Witness for C6: on a concrete store, the top co-occurrence list
reported for agent a1 equals the one reported for agent a2. -/
theorem getStats_scoping_witness :
    (getStats w6DB (some wAg1)).topCooccurrences
      = (getStats w6DB (some wAg2)).topCooccurrences :=
  (getStats_scoping w6DB (some wAg1) (some wAg2)).1

/-- C7.  deleteTriplesByExchange removes exactly the triples whose
sourceExchangeId equals the given id and returns their count; the
entities table (with all mention counts), the co-occurrence table and the
id counter are untouched, every remaining triple (and hence every triple
a subsequent queryTriples can return, for any filters) does not carry
that exchange id, and every other triple survives. -/
theorem deleteTriplesByExchange_spec (db : DB) (exid : Str)
    (qs qp qo qa : Option Str) (ql : Option Nat) :
    (deleteTriplesByExchange db exid).1
      = (db.triples.filter (fun t => t.sourceExchangeId == some exid)).length ∧
    (∀ t ∈ (deleteTriplesByExchange db exid).2.triples,
      t.sourceExchangeId ≠ some exid) ∧
    (∀ t ∈ db.triples, t.sourceExchangeId ≠ some exid →
      t ∈ (deleteTriplesByExchange db exid).2.triples) ∧
    (∀ t ∈ (deleteTriplesByExchange db exid).2.triples, t ∈ db.triples) ∧
    (deleteTriplesByExchange db exid).2.entities = db.entities ∧
    (deleteTriplesByExchange db exid).2.coocs = db.coocs ∧
    (deleteTriplesByExchange db exid).2.nextId = db.nextId ∧
    (∀ t ∈ queryTriples (deleteTriplesByExchange db exid).2 qs qp qo qa ql,
      t.sourceExchangeId ≠ some exid) := by
  have hno : ∀ t ∈ (deleteTriplesByExchange db exid).2.triples,
      t.sourceExchangeId ≠ some exid := by
    intro t ht
    have h1 := (List.mem_filter.mp ht).2
    simpa using h1
  refine ⟨rfl, hno, ?_, ?_, rfl, rfl, rfl, ?_⟩
  · intro t ht hne
    exact List.mem_filter.mpr ⟨ht, by simpa using hne⟩
  · intro t ht
    exact (List.mem_filter.mp ht).1
  · intro t ht
    have h1 := List.mem_of_mem_take ht
    have h2 := (mem_sortDescBy _ t _).mp h1
    have h3 := (List.mem_filter.mp h2).1
    exact hno t h3

/-- Witness for C7: deleting exchange E1's triples from the concrete
store leaves the entities table unchanged and reports one deleted row. -/
theorem deleteTriplesByExchange_spec_witness :
    (deleteTriplesByExchange wDB wE1).2.entities = wDB.entities ∧
    (deleteTriplesByExchange wDB wE1).1
      = (wDB.triples.filter (fun t => t.sourceExchangeId == some wE1)).length :=
  ⟨(deleteTriplesByExchange_spec wDB wE1 none none none none none).2.2.2.2.1,
   (deleteTriplesByExchange_spec wDB wE1 none none none none none).1⟩

/-- C9 counterexample: prefix search is NOT case-sensitive — the lowercase
prefix `'al'` returns the entity whose stored canonical name is
`'Alice'`, although `'al'` is not a prefix of `'Alice'` under a
case-sensitive comparison, so the claim's "only entities whose stored
canonical name starts with the prefix under a case-sensitive comparison"
is false on this input. -/
theorem findEntitiesByPrefix_case_counterexample :
    findEntitiesByPrefix wEntDB wAl none = [wEntAlice] ∧
    wAl.isPrefixOf wEntAlice.canonicalName = false := by
  decide

theorem likeMatch_pct_prefix (p : Str) : ∀ (t : Str), 37 ∉ p → 95 ∉ p →
    likeMatch (p ++ [37]) t = true →
    (jsToLower p).isPrefixOf (jsToLower t) = true := by
  induction p with
  | nil =>
    intro t h37 h95 h
    simp [jsToLower, List.isPrefixOf]
  | cons c cs ih =>
    intro t h37 h95 h
    have hc37 : ¬ c = 37 := fun hc => h37 (hc ▸ List.mem_cons_self _ _)
    have hc95 : ¬ c = 95 := fun hc => h95 (hc ▸ List.mem_cons_self _ _)
    rw [List.cons_append] at h
    unfold likeMatch at h
    rw [if_neg hc37, if_neg hc95] at h
    cases t with
    | nil => exact absurd h (by simp)
    | cons d ts =>
      simp only [Bool.and_eq_true, beq_iff_eq] at h
      have hrest := ih ts (fun hm => h37 (List.mem_cons_of_mem _ hm))
        (fun hm => h95 (List.mem_cons_of_mem _ hm)) h.2
      unfold jsToLower at hrest ⊢
      simp only [List.map_cons, List.isPrefixOf]
      rw [h.1]
      simp only [beq_self_eq_true, Bool.true_and]
      exact hrest

/-- C9 (amended).  findEntitiesByPrefix returns at most 10 rows, each
belonging to the requested agent and matching the SQLite `LIKE` pattern
`prefix + '%'` — which, SQLite's default LIKE being case-insensitive on
ASCII, means (for a wildcard-free prefix) that the prefix matches the
stored canonical name only up to case, not case-sensitively. -/
theorem findEntitiesByPrefix_spec (db : DB) (pfx : Str) (agentId : Option Str) :
    (findEntitiesByPrefix db pfx agentId).length ≤ 10 ∧
    (∀ e ∈ findEntitiesByPrefix db pfx agentId,
      e.agentId = jsOrStr agentId mainStr ∧
      likeMatch (pfx ++ [37]) e.canonicalName = true ∧
      e ∈ db.entities) ∧
    (37 ∉ pfx → 95 ∉ pfx →
      ∀ e ∈ findEntitiesByPrefix db pfx agentId,
        (jsToLower pfx).isPrefixOf (jsToLower e.canonicalName) = true) := by
  have hmem : ∀ e ∈ findEntitiesByPrefix db pfx agentId,
      e.agentId = jsOrStr agentId mainStr ∧
      likeMatch (pfx ++ [37]) e.canonicalName = true ∧
      e ∈ db.entities := by
    intro e he
    have h1 := List.mem_of_mem_take he
    have h2 := List.mem_filter.mp h1
    have h3 := h2.2
    simp only [Bool.and_eq_true, beq_iff_eq] at h3
    exact ⟨h3.2, h3.1, h2.1⟩
  refine ⟨List.length_take_le _ _, hmem, ?_⟩
  intro h37 h95 e he
  exact likeMatch_pct_prefix pfx e.canonicalName h37 h95 (hmem e he).2.1

/-- Witness for C9's amended claim: on the concrete store, the entity
returned for prefix `'al'` matches `'al'` case-insensitively. -/
theorem findEntitiesByPrefix_spec_witness :
    (jsToLower wAl).isPrefixOf (jsToLower wEntAlice.canonicalName) = true :=
  (findEntitiesByPrefix_spec wEntDB wAl none).2.2 (by decide) (by decide)
    wEntAlice (by decide)

theorem entPhase_cons (db : DB) (e : EntIn) (rest : List EntIn) (aid : Str)
    (now : Nat) :
    entPhase db (e :: rest) aid now = entPhase (entStepW aid now db e) rest aid now := rfl

theorem entPhaseF_ok (es : List EntIn) :
    ∀ (db : DB) (aid : Str) (now k : Nat) (eF : Nat → Bool),
    (∀ i, i < es.length → eF (k + i) = false) →
    entPhaseF db es aid now k eF = .ok (entPhase db es aid now) := by
  induction es with
  | nil => intro db aid now k eF h; rfl
  | cons e rest ih =>
    intro db aid now k eF h
    have h0 : eF k = false := by simpa using h 0 (by simp)
    have hshift : ∀ i, i < rest.length → eF (k + 1 + i) = false := by
      intro i hi
      have hk : k + 1 + i = k + (i + 1) := by omega
      rw [hk]
      exact h (i + 1) (by simp only [List.length_cons]; omega)
    unfold entPhaseF
    rw [h0]
    simp only [Bool.false_eq_true, if_false]
    rw [ih (entStepW aid now db e) aid now (k + 1) eF hshift]
    rfl

theorem tripPhase_acc (ts : List TripleIn0) (aid : Str) (srcEx : Option Str)
    (date : Str) (now : Nat) :
    ∀ (db : DB) (acc : List Nat),
    ts.foldl (tripStepW aid srcEx date now) (acc, db)
      = (acc ++ (tripPhase db ts aid srcEx date now).1,
         (tripPhase db ts aid srcEx date now).2) := by
  induction ts with
  | nil =>
    intro db acc
    simp [tripPhase]
  | cons tr rest ih =>
    intro db acc
    rw [List.foldl_cons]
    have hstep : tripStepW aid srcEx date now (acc, db) tr
        = (acc ++ [(addTriple db (mkTI tr aid srcEx date) now date).1],
           (addTriple db (mkTI tr aid srcEx date) now date).2) := rfl
    rw [hstep, ih]
    have h0 : tripPhase db (tr :: rest) aid srcEx date now
        = rest.foldl (tripStepW aid srcEx date now)
            ([(addTriple db (mkTI tr aid srcEx date) now date).1],
             (addTriple db (mkTI tr aid srcEx date) now date).2) := rfl
    rw [h0, ih]
    simp

theorem tripPhase_cons (tr : TripleIn0) (rest : List TripleIn0) (aid : Str)
    (srcEx : Option Str) (date : Str) (now : Nat) (db : DB) :
    tripPhase db (tr :: rest) aid srcEx date now
      = ((addTriple db (mkTI tr aid srcEx date) now date).1
          :: (tripPhase (addTriple db (mkTI tr aid srcEx date) now date).2
              rest aid srcEx date now).1,
         (tripPhase (addTriple db (mkTI tr aid srcEx date) now date).2
              rest aid srcEx date now).2) := by
  have h0 : tripPhase db (tr :: rest) aid srcEx date now
      = rest.foldl (tripStepW aid srcEx date now)
          ([(addTriple db (mkTI tr aid srcEx date) now date).1],
           (addTriple db (mkTI tr aid srcEx date) now date).2) := rfl
  rw [h0, tripPhase_acc]
  rfl

theorem tripPhase_eq_ids (ts : List TripleIn0) (aid : Str) (srcEx : Option Str)
    (date : Str) (now : Nat) :
    ∀ db : DB, (tripPhase db ts aid srcEx date now).1
      = tripIds db ts aid srcEx date now := by
  induction ts with
  | nil => intro db; rfl
  | cons tr rest ih =>
    intro db
    rw [tripPhase_cons]
    show (addTriple db (mkTI tr aid srcEx date) now date).1
        :: (tripPhase (addTriple db (mkTI tr aid srcEx date) now date).2
            rest aid srcEx date now).1
      = tripIds db (tr :: rest) aid srcEx date now
    rw [ih]
    rfl

theorem tripIds_length (ts : List TripleIn0) (aid : Str) (srcEx : Option Str)
    (date : Str) (now : Nat) :
    ∀ db : DB, (tripIds db ts aid srcEx date now).length = ts.length := by
  induction ts with
  | nil => intro db; rfl
  | cons tr rest ih =>
    intro db
    simp only [tripIds, List.length_cons]
    rw [ih]

theorem tripPhaseF_ok (ts : List TripleIn0) :
    ∀ (db : DB) (aid : Str) (srcEx : Option Str) (date : Str) (now k : Nat)
      (acc : List Nat) (tF : Nat → Bool),
    (∀ i, i < ts.length → tF (k + i) = false) →
    tripPhaseF db ts aid srcEx date now k acc tF
      = .ok (acc ++ (tripPhase db ts aid srcEx date now).1,
             (tripPhase db ts aid srcEx date now).2) := by
  induction ts with
  | nil =>
    intro db aid srcEx date now k acc tF h
    simp [tripPhaseF, tripPhase]
  | cons tr rest ih =>
    intro db aid srcEx date now k acc tF h
    have h0 : tF k = false := by simpa using h 0 (by simp)
    have hshift : ∀ i, i < rest.length → tF (k + 1 + i) = false := by
      intro i hi
      have hk : k + 1 + i = k + (i + 1) := by omega
      rw [hk]
      exact h (i + 1) (by simp only [List.length_cons]; omega)
    unfold tripPhaseF
    rw [h0]
    simp only [Bool.false_eq_true, if_false]
    rw [ih _ aid srcEx date now (k + 1)
      (acc ++ [(addTriple db (mkTI tr aid srcEx date) now date).1]) tF hshift]
    rw [tripPhase_cons]
    simp

theorem coocPhase_cons (pr : Str × Str) (rest : List (Str × Str)) (now : Nat)
    (db : DB) :
    coocPhase db (pr :: rest) now = coocPhase (coocPairStep now db pr) rest now := rfl

theorem coocPhaseF_ok (cs : List (Str × Str)) :
    ∀ (db : DB) (now k : Nat) (cF : Nat → Bool),
    (∀ i, i < cs.length → cF (k + i) = false) →
    coocPhaseF db cs now k cF = .ok (coocPhase db cs now) := by
  induction cs with
  | nil => intro db now k cF h; rfl
  | cons pr rest ih =>
    intro db now k cF h
    have h0 : cF k = false := by simpa using h 0 (by simp)
    have hshift : ∀ i, i < rest.length → cF (k + 1 + i) = false := by
      intro i hi
      have hk : k + 1 + i = k + (i + 1) := by omega
      rw [hk]
      exact h (i + 1) (by simp only [List.length_cons]; omega)
    unfold coocPhaseF
    rw [h0]
    simp only [Bool.false_eq_true, if_false]
    rw [ih (coocPairStep now db pr) now (k + 1) cF hshift]
    rfl

theorem coocPhaseF_err (cs : List (Str × Str)) :
    ∀ (db : DB) (now k : Nat) (cF : Nat → Bool),
    (∃ i, i < cs.length ∧ cF (k + i) = true) →
    coocPhaseF db cs now k cF = .error () := by
  induction cs with
  | nil =>
    intro db now k cF h
    rcases h with ⟨i, hi, _⟩
    simp at hi
  | cons pr rest ih =>
    intro db now k cF h
    by_cases h0 : cF k = true
    · unfold coocPhaseF
      rw [h0]
      rfl
    · rw [Bool.not_eq_true] at h0
      unfold coocPhaseF
      rw [h0]
      simp only [Bool.false_eq_true, if_false]
      apply ih
      rcases h with ⟨i, hi, hf⟩
      cases i with
      | zero =>
        rw [Nat.add_zero] at hf
        exact absurd hf (by simp [h0])
      | succ j =>
        refine ⟨j, ?_, ?_⟩
        · simp only [List.length_cons] at hi
          omega
        · have hk : k + 1 + j = k + (j + 1) := by omega
          rw [hk]
          exact hf

theorem upsertEntity_frame (db : DB) (name : Str) (ty a : Option Str) (now : Nat) :
    (upsertEntity db name ty a now).2.triples = db.triples ∧
    (upsertEntity db name ty a now).2.coocs = db.coocs ∧
    (upsertEntity db name ty a now).2.nextId = db.nextId := by
  unfold upsertEntity upsertEntityRow
  by_cases h : (db.entities.any (fun e => e.id == normalizeEntityId name)) = true
  · simp [h]
  · simp [h]

theorem entPhase_frame (es : List EntIn) (aid : Str) (now : Nat) :
    ∀ db : DB,
    (entPhase db es aid now).triples = db.triples ∧
    (entPhase db es aid now).coocs = db.coocs ∧
    (entPhase db es aid now).nextId = db.nextId := by
  induction es with
  | nil => intro db; exact ⟨rfl, rfl, rfl⟩
  | cons e rest ih =>
    intro db
    rw [entPhase_cons]
    rcases ih (entStepW aid now db e) with ⟨h1, h2, h3⟩
    have hf := upsertEntity_frame db e.name e.etype (some aid) now
    exact ⟨h1.trans hf.1, h2.trans hf.2.1, h3.trans hf.2.2⟩

theorem addTriple_frame (db : DB) (inp : TripleIn) (now : Nat) (today : Str) :
    (addTriple db inp now today).2.coocs = db.coocs ∧
    (addTriple db inp now today).2.entities = db.entities := by
  simp only [addTriple]
  cases findTriple db (normalizeEntityId inp.subject) inp.predicate
      (normalizeEntityId inp.object) (jsOrStr inp.agentId mainStr) with
  | none => exact ⟨rfl, rfl⟩
  | some ex => exact ⟨rfl, rfl⟩

theorem tripPhase_coocs (ts : List TripleIn0) (aid : Str) (srcEx : Option Str)
    (date : Str) (now : Nat) :
    ∀ db : DB, (tripPhase db ts aid srcEx date now).2.coocs = db.coocs := by
  induction ts with
  | nil => intro db; rfl
  | cons tr rest ih =>
    intro db
    rw [tripPhase_cons]
    exact (ih _).trans (addTriple_frame db _ now date).1

theorem strLtB_asymm (a : Str) : ∀ b : Str, strLtB a b = true → strLtB b a = false := by
  induction a with
  | nil =>
    intro b h
    cases b with
    | nil => simpa [strLtB] using h
    | cons y ys => rfl
  | cons x xs ih =>
    intro b h
    cases b with
    | nil => simp [strLtB] at h
    | cons y ys =>
      unfold strLtB at h ⊢
      by_cases hxy : x < y
      · rw [if_pos hxy] at h
        rw [if_neg (by omega), if_pos hxy]
      · rw [if_neg hxy] at h
        by_cases hyx : y < x
        · rw [if_pos hyx] at h
          exact absurd h (by simp)
        · rw [if_neg hyx] at h
          rw [if_neg hyx, if_neg hxy]
          exact ih ys h

theorem upsertCooccurrence_keys (db : DB) (x y : Str) (now : Nat) (c : Cooc)
    (hc : c ∈ (upsertCooccurrence db x y now).coocs) :
    (∃ c0 ∈ db.coocs, c.entityA = c0.entityA ∧ c.entityB = c0.entityB) ∨
    (c.entityA = x ∧ c.entityB = y) := by
  unfold upsertCooccurrence at hc
  by_cases h : (db.coocs.any (fun c => c.entityA == x && c.entityB == y)) = true
  · rw [if_pos h] at hc
    simp only at hc
    rcases List.mem_map.mp hc with ⟨c0, hc0, rfl⟩
    by_cases hk : c0.entityA = x ∧ c0.entityB = y
    · rw [if_pos hk]
      exact Or.inl ⟨c0, hc0, rfl, rfl⟩
    · rw [if_neg hk]
      exact Or.inl ⟨c0, hc0, rfl, rfl⟩
  · rw [if_neg h] at hc
    simp only at hc
    rcases List.mem_append.mp hc with h1 | h2
    · exact Or.inl ⟨c, h1, rfl, rfl⟩
    · rw [List.mem_singleton] at h2
      subst h2
      exact Or.inr ⟨rfl, rfl⟩

theorem coocPairStep_sorted (db0 : DB) (now : Nat) (d : DB) (pr : Str × Str)
    (h : ∀ c ∈ d.coocs,
      (∃ c0 ∈ db0.coocs, c.entityA = c0.entityA ∧ c.entityB = c0.entityB) ∨
      strLtB c.entityB c.entityA = false) :
    ∀ c ∈ (coocPairStep now d pr).coocs,
      (∃ c0 ∈ db0.coocs, c.entityA = c0.entityA ∧ c.entityB = c0.entityB) ∨
      strLtB c.entityB c.entityA = false := by
  intro c hc
  simp only [coocPairStep] at hc
  have htrans : ∀ (u v : Str), c ∈ (upsertCooccurrence d u v now).coocs →
      strLtB v u = false →
      (∃ c0 ∈ db0.coocs, c.entityA = c0.entityA ∧ c.entityB = c0.entityB) ∨
      strLtB c.entityB c.entityA = false := by
    intro u v hcm hvu
    rcases upsertCooccurrence_keys d u v now c hcm with hold | hnew
    · rcases hold with ⟨c0, hc0, he⟩
      rcases h c0 hc0 with h1 | h2
      · rcases h1 with ⟨c1, hc1, he1⟩
        exact Or.inl ⟨c1, hc1, he.1.trans he1.1, he.2.trans he1.2⟩
      · right
        rw [he.1, he.2]
        exact h2
    · right
      rw [hnew.1, hnew.2]
      exact hvu
  by_cases hba : strLtB (normalizeEntityId pr.2) (normalizeEntityId pr.1) = true
  · rw [if_pos hba] at hc
    exact htrans _ _ hc (strLtB_asymm _ _ hba)
  · rw [if_neg hba] at hc
    rw [Bool.not_eq_true] at hba
    exact htrans _ _ hc hba

theorem coocPhase_sorted (cs : List (Str × Str)) (now : Nat) :
    ∀ (db0 d : DB),
    (∀ c ∈ d.coocs,
      (∃ c0 ∈ db0.coocs, c.entityA = c0.entityA ∧ c.entityB = c0.entityB) ∨
      strLtB c.entityB c.entityA = false) →
    ∀ c ∈ (coocPhase d cs now).coocs,
      (∃ c0 ∈ db0.coocs, c.entityA = c0.entityA ∧ c.entityB = c0.entityB) ∨
      strLtB c.entityB c.entityA = false := by
  induction cs with
  | nil => intro db0 d h; exact h
  | cons pr rest ih =>
    intro db0 d h
    rw [coocPhase_cons]
    exact ih db0 _ (coocPairStep_sorted db0 now d pr h)

/-- C3.  writeExchange is atomic and ordered: with failure injection on
any step of its transaction body, a failed run (signalled by a `none`
result) leaves the database exactly as it was — in particular a
co-occurrence upsert failing mid-batch after all entities and triples
succeeded rolls everything back — while a failure-free run commits and
equals the pure composition entity-phase, then triple-phase, then
co-occurrence-phase; the returned list is the per-input-triple addTriple
ids in input order (one per input triple), and every co-occurrence row
the batch stores is either a pre-existing key or sorted with
`entityA ≤ entityB`. -/
theorem writeExchange_atomic (db : DB) (x : ExchangeIn) (now : Nat) (today : Str)
    (eF tF cF : Nat → Bool) :
    ((writeExchangeF db x now today eF tF cF).1 = none →
      (writeExchangeF db x now today eF tF cF).2 = db) ∧
    ((∃ i, i < x.cooccurrences.length ∧ cF i = true) →
      (∀ i, i < x.entities.length → eF i = false) →
      (∀ i, i < x.triples.length → tF i = false) →
      writeExchangeF db x now today eF tF cF = (none, db)) ∧
    ((∀ i, i < x.entities.length → eF i = false) →
     (∀ i, i < x.triples.length → tF i = false) →
     (∀ i, i < x.cooccurrences.length → cF i = false) →
      writeExchangeF db x now today eF tF cF
        = (some (writeExchange db x now today).1,
           (writeExchange db x now today).2)) ∧
    (writeExchange db x now today).2
      = coocPhase (tripPhase (entPhase db x.entities (jsOrStr x.agentId mainStr) now)
          x.triples (jsOrStr x.agentId mainStr) x.sourceExchangeId
          (jsOrStr x.sourceDate today) now).2 x.cooccurrences now ∧
    (writeExchange db x now today).1
      = tripIds (entPhase db x.entities (jsOrStr x.agentId mainStr) now) x.triples
          (jsOrStr x.agentId mainStr) x.sourceExchangeId
          (jsOrStr x.sourceDate today) now ∧
    (writeExchange db x now today).1.length = x.triples.length ∧
    (∀ c ∈ (writeExchange db x now today).2.coocs,
      (∃ c0 ∈ db.coocs, c.entityA = c0.entityA ∧ c.entityB = c0.entityB) ∨
      strLtB c.entityB c.entityA = false) := by
  have hids : (writeExchange db x now today).1
      = tripIds (entPhase db x.entities (jsOrStr x.agentId mainStr) now) x.triples
          (jsOrStr x.agentId mainStr) x.sourceExchangeId
          (jsOrStr x.sourceDate today) now :=
    tripPhase_eq_ids x.triples (jsOrStr x.agentId mainStr) x.sourceExchangeId
      (jsOrStr x.sourceDate today) now _
  refine ⟨?_, ?_, ?_, rfl, hids, ?_, ?_⟩
  · intro h
    simp only [writeExchangeF] at h ⊢
    cases h1 : entPhaseF db x.entities (jsOrStr x.agentId mainStr) now 0 eF with
    | error e => rfl
    | ok db1 =>
      simp only [h1] at h
      cases h2 : tripPhaseF db1 x.triples (jsOrStr x.agentId mainStr)
          x.sourceExchangeId (jsOrStr x.sourceDate today) now 0 [] tF with
      | error e => simp only [h1, h2]
      | ok p =>
        simp only [h2] at h
        cases h3 : coocPhaseF p.2 x.cooccurrences now 0 cF with
        | error e => simp only [h1, h2, h3]
        | ok db3 =>
          simp only [h3] at h
          simp at h
  · intro hex he ht
    have he0 : ∀ i, i < x.entities.length → eF (0 + i) = false := by
      intro i hi
      rw [Nat.zero_add]
      exact he i hi
    have ht0 : ∀ i, i < x.triples.length → tF (0 + i) = false := by
      intro i hi
      rw [Nat.zero_add]
      exact ht i hi
    have hex0 : ∃ i, i < x.cooccurrences.length ∧ cF (0 + i) = true := by
      rcases hex with ⟨i, hi, hf⟩
      exact ⟨i, hi, by rw [Nat.zero_add]; exact hf⟩
    have h1 := entPhaseF_ok x.entities db (jsOrStr x.agentId mainStr) now 0 eF he0
    have h2 := tripPhaseF_ok x.triples
      (entPhase db x.entities (jsOrStr x.agentId mainStr) now)
      (jsOrStr x.agentId mainStr) x.sourceExchangeId
      (jsOrStr x.sourceDate today) now 0 [] tF ht0
    rw [List.nil_append, Prod.mk.eta] at h2
    have h3 := coocPhaseF_err x.cooccurrences
      (tripPhase (entPhase db x.entities (jsOrStr x.agentId mainStr) now) x.triples
        (jsOrStr x.agentId mainStr) x.sourceExchangeId
        (jsOrStr x.sourceDate today) now).2 now 0 cF hex0
    simp only [writeExchangeF, h1, h2, h3]
  · intro he ht hc
    have he0 : ∀ i, i < x.entities.length → eF (0 + i) = false := by
      intro i hi
      rw [Nat.zero_add]
      exact he i hi
    have ht0 : ∀ i, i < x.triples.length → tF (0 + i) = false := by
      intro i hi
      rw [Nat.zero_add]
      exact ht i hi
    have hc0 : ∀ i, i < x.cooccurrences.length → cF (0 + i) = false := by
      intro i hi
      rw [Nat.zero_add]
      exact hc i hi
    have h1 := entPhaseF_ok x.entities db (jsOrStr x.agentId mainStr) now 0 eF he0
    have h2 := tripPhaseF_ok x.triples
      (entPhase db x.entities (jsOrStr x.agentId mainStr) now)
      (jsOrStr x.agentId mainStr) x.sourceExchangeId
      (jsOrStr x.sourceDate today) now 0 [] tF ht0
    rw [List.nil_append, Prod.mk.eta] at h2
    have h3 := coocPhaseF_ok x.cooccurrences
      (tripPhase (entPhase db x.entities (jsOrStr x.agentId mainStr) now) x.triples
        (jsOrStr x.agentId mainStr) x.sourceExchangeId
        (jsOrStr x.sourceDate today) now).2 now 0 cF hc0
    simp only [writeExchangeF, h1, h2, h3]
    rfl
  · rw [hids]
    exact tripIds_length x.triples (jsOrStr x.agentId mainStr) x.sourceExchangeId
      (jsOrStr x.sourceDate today) now _
  · intro c hc
    refine coocPhase_sorted x.cooccurrences now db
      (tripPhase (entPhase db x.entities (jsOrStr x.agentId mainStr) now) x.triples
        (jsOrStr x.agentId mainStr) x.sourceExchangeId
        (jsOrStr x.sourceDate today) now).2 ?_ c hc
    intro c0 hc0
    rw [tripPhase_coocs,
      (entPhase_frame x.entities (jsOrStr x.agentId mainStr) now db).2.1] at hc0
    exact Or.inl ⟨c0, hc0, rfl, rfl⟩

/-- Witness for C3: on a concrete one-entity one-triple one-pair batch
over the empty store, a failing co-occurrence upsert rolls the whole
batch back. -/
theorem writeExchange_atomic_witness :
    writeExchangeF wEmptyDB wXIn 1 wDate (fun _ => false) (fun _ => false)
        (fun _ => true) = (none, wEmptyDB) :=
  (writeExchange_atomic wEmptyDB wXIn 1 wDate (fun _ => false) (fun _ => false)
      (fun _ => true)).2.1
    ⟨0, by decide, rfl⟩ (fun _ _ => rfl) (fun _ _ => rfl)

end OCG
